import Mathlib

/-!
Verification development for the Chicago-crime scrubbing core
(`src/ChiTownScrub.ipynb`): the per-field validation and rejection engine.

The table data model follows the spec's data model section: a table is an
ordered collection of rows with a stable, unique load-time index; each row
maps column names to string values, where a missing key and a stored null
both read as null (the spec's "string value (or null/absent)").

The shared field processor `process_field` lives in the repository's
`data_utils.py`, which is not part of the given sources; it is modelled
from the spec (section 4.1), as are the reject-analysis helpers
(section 4.4).  Everything else is translated from `ChiTownScrub.ipynb`.
-/

namespace Scrub

/-- A cell value: `none` is null. -/
abbrev Value := Option String

/-- A row: an association list from column name to value. -/
abbrev Row := List (String × Value)

/-- A table: rows tagged with their stable load-time index. -/
abbrev Table := List (Nat × Row)

/-- A reject record: per column name, the row indices that failed it. -/
abbrev RejectRecord := List (String × List Nat)

/-- Read a column of a row; a missing key and a stored null both read as null. -/
def getVal (r : Row) (c : String) : Value :=
  match r.lookup c with
  | some v => v
  | none => none

/-- Write a column of a row: overwrite every binding of the key if present,
append a new binding otherwise (mirrors `df[col] = ...`). -/
def setVal (r : Row) (c : String) (v : Value) : Row :=
  if (r.lookup c).isSome then
    r.map (fun q => if q.1 = c then (c, v) else q)
  else
    r ++ [(c, v)]

/-- Remove a column of a row (mirrors dropping a dataframe column). -/
def dropVal (r : Row) (c : String) : Row :=
  r.filter (fun q => q.1 != c)

/-- Apply an index-aware per-row update to every row of a table. -/
def mapRowsIdx (f : Nat × Row → Row) (tbl : Table) : Table :=
  tbl.map (fun p => (p.1, f p))

/-- Apply a per-row update to every row of a table. -/
def mapRows (f : Row → Row) (tbl : Table) : Table :=
  mapRowsIdx (fun p => f p.2) tbl

/-- The first row carrying index `i`, with its index. -/
def rowAtP (tbl : Table) (i : Nat) : Option (Nat × Row) :=
  tbl.find? (fun p => p.1 == i)

/-- The value of column `c` at row index `i` (null when the row is absent). -/
def cellVal (tbl : Table) (i : Nat) (c : String) : Value :=
  match rowAtP tbl i with
  | some p => getVal p.2 c
  | none => none

/-- Does the table contain a row with index `i`? -/
def hasRow (tbl : Table) (i : Nat) : Bool := (rowAtP tbl i).isSome

/-- Does the row at index `i` carry a binding (even a null one) for column `c`? -/
def hasCol (tbl : Table) (i : Nat) (c : String) : Bool :=
  match rowAtP tbl i with
  | some p => (p.2.lookup c).isSome
  | none => false

/-! ### Basic row lemmas -/

theorem lookup_map_set_self (r : Row) (c : String) (v : Value) :
    (r.map (fun q => if q.1 = c then (c, v) else q)).lookup c
      = (r.lookup c).map (fun _ => v) := by
  induction r with
  | nil => rfl
  | cons q t ih =>
    obtain ⟨k, w⟩ := q
    simp only [List.map_cons]
    by_cases hq : k = c
    · subst hq
      rw [if_pos rfl]
      simp [List.lookup, ih]
    · rw [if_neg hq]
      have hb : (c == k) = false := by
        simp only [beq_eq_false_iff_ne, ne_eq]
        exact fun hc => hq hc.symm
      simp [List.lookup, hb, ih]

theorem lookup_map_set_ne (r : Row) (c c' : String) (v : Value) (h : c' ≠ c) :
    (r.map (fun q => if q.1 = c then (c, v) else q)).lookup c' = r.lookup c' := by
  induction r with
  | nil => rfl
  | cons q t ih =>
    obtain ⟨k, w⟩ := q
    simp only [List.map_cons]
    by_cases hq : k = c
    · subst hq
      rw [if_pos rfl]
      have hb : (c' == k) = false := by simp only [beq_eq_false_iff_ne, ne_eq]; exact h
      simp [List.lookup, hb, ih]
    · rw [if_neg hq]
      cases hb : (c' == k) with
      | true => simp [List.lookup, hb]
      | false => simp [List.lookup, hb, ih]

theorem lookup_append_one (r : Row) (c c' : String) (v : Value) :
    (r ++ [(c, v)]).lookup c'
      = match r.lookup c' with
        | some w => some w
        | none => List.lookup c' [(c, v)] := by
  induction r with
  | nil => rfl
  | cons q t ih =>
    cases hb : (c' == q.1) with
    | true => simp [List.lookup, hb]
    | false => simp [List.lookup, hb, ih]

theorem lookup_setVal_self (r : Row) (c : String) (v : Value) :
    (setVal r c v).lookup c = some v := by
  unfold setVal
  split
  · next h =>
    rw [lookup_map_set_self]
    cases hl : r.lookup c with
    | some w => rfl
    | none => rw [hl] at h; simp at h
  · next h =>
    rw [lookup_append_one]
    cases hl : r.lookup c with
    | some w => rw [hl] at h; simp at h
    | none => simp [List.lookup]

theorem lookup_setVal_ne (r : Row) (c c' : String) (v : Value) (h : c' ≠ c) :
    (setVal r c v).lookup c' = r.lookup c' := by
  unfold setVal
  split
  · exact lookup_map_set_ne r c c' v h
  · rw [lookup_append_one]
    cases hl : r.lookup c' with
    | some w => rfl
    | none =>
      have hb : (c' == c) = false := by simp only [beq_eq_false_iff_ne, ne_eq]; exact h
      simp [List.lookup, hb]

theorem getVal_setVal_self (r : Row) (c : String) (v : Value) :
    getVal (setVal r c v) c = v := by
  unfold getVal
  rw [lookup_setVal_self]

theorem getVal_setVal_ne (r : Row) (c c' : String) (v : Value) (h : c' ≠ c) :
    getVal (setVal r c v) c' = getVal r c' := by
  unfold getVal
  rw [lookup_setVal_ne r c c' v h]

theorem lookup_dropVal_self (r : Row) (c : String) :
    (dropVal r c).lookup c = none := by
  unfold dropVal
  induction r with
  | nil => rfl
  | cons q t ih =>
    by_cases hq : q.1 = c
    · have : (q.1 != c) = false := by simp [bne, hq]
      simp [this, ih]
    · have hb : (q.1 != c) = true := by simp [bne, beq_iff_eq, hq]
      have hne : (c == q.1) = false := by
        simp only [beq_eq_false_iff_ne, ne_eq]
        exact fun hc => hq hc.symm
      simp [hb, List.lookup, hne, ih]

theorem getVal_dropVal_self (r : Row) (c : String) :
    getVal (dropVal r c) c = none := by
  unfold getVal
  rw [lookup_dropVal_self]

theorem getVal_dropVal_ne (r : Row) (c c' : String) (h : c' ≠ c) :
    getVal (dropVal r c) c' = getVal r c' := by
  unfold getVal dropVal
  induction r with
  | nil => rfl
  | cons q t ih =>
    by_cases hq : q.1 = c
    · have hb : (q.1 != c) = false := by simp [bne, hq]
      have hne : (c' == q.1) = false := by
        simp only [beq_eq_false_iff_ne, ne_eq]
        exact fun hc => h (hc.trans hq)
      simp [hb, List.lookup, hne, ih]
    · have hb : (q.1 != c) = true := by simp [bne, beq_iff_eq, hq]
      simp only [List.filter_cons, hb, List.lookup]
      cases hb2 : (c' == q.1) with
      | true => simp
      | false => exact ih

/-! ### Column validators

Translated from the regex patterns `MY_REGX` in `ChiTownScrub.ipynb`, under
pandas `Series.str.match` semantics (`re.match`: the pattern must match at
the start of the string, but not necessarily up to its end unless the
pattern itself is `$`-anchored). -/

/-- Split a character list on a separator character (the splitting used by
the date parser and the word-group patterns). -/
def splitOnChar (sep : Char) (cs : List Char) : List (List Char) :=
  cs.foldr
    (fun c acc =>
      match acc with
      | [] => [[c]]
      | w :: rest => if c = sep then [] :: w :: rest else (c :: w) :: rest)
    [[]]

/-- Digits-to-number conversion for already-validated digit strings. -/
def chars_to_nat (cs : List Char) : Nat :=
  cs.foldl (fun n c => n * 10 + (c.toNat - 48)) 0

/-- Case normalization used for the case-insensitive enumerated-value
comparison (`series.str.lower()`). -/
def lower_str (s : String) : String :=
  (s.data.map Char.toLower).asString

/-- pandas `series.str.isdigit()` on a present value: nonempty, all digits. -/
def is_digit_str (s : String) : Bool :=
  !s.isEmpty && s.data.all Char.isDigit

/-- `id` rule of `process_hard_rejects`: `series.str.isdigit()`. -/
def id_val (s : String) : Bool := is_digit_str s

/-- `case_number` rule of `process_hard_rejects`: the first two characters
(`str.slice(0,2)`) must fully match `TWO_LETTERS = ^[a-z]{2}$` with the
ignore-case flag, i.e. the string has at least two characters and both of
the first two are letters. -/
def case_number_val (s : String) : Bool :=
  match s.data with
  | a :: b :: _ => a.isAlpha && b.isAlpha
  | _ => false

/-- `IUCR = ^[a-z\d]{4}$` (ignore-case): a 4-character alphanumeric code. -/
def iucr_match (s : String) : Bool :=
  s.length == 4 && s.data.all (fun c => c.isAlpha || c.isDigit)

/-- Matcher for the word-group patterns of shape
`^(?:CLASS{1,maxLen}(?: |$)){1,maxWords}$`: the string splits on single
spaces into 1..maxWords nonempty words over the character class, each at
most maxLen long; one trailing space is allowed (the last group may consume
it before the end anchor). -/
def word_groups_match (ok : Char → Bool) (maxLen maxWords : Nat) (s : String) : Bool :=
  let parts := splitOnChar ' ' s.data
  let ws := if parts.getLast? == some [] then parts.dropLast else parts
  !ws.isEmpty && decide (ws.length ≤ maxWords) &&
    ws.all (fun w => !w.isEmpty && decide (w.length ≤ maxLen) && w.all ok)

/-- `PRIMARY_TYPE = ^(?:[a-z\-]{1,20}(?: |$)){1,5}$` (ignore-case). -/
def primary_type_match (s : String) : Bool :=
  word_groups_match (fun c => c.isAlpha || c == '-') 20 5 s

/-- `DESCRIPTION = ^(?:[a-z\-\/\:\,\.\(\)\d\$}]{1,25}(?: |$)){1,7}$` (ignore-case). -/
def description_match (s : String) : Bool :=
  word_groups_match
    (fun c => c.isAlpha || c.isDigit || "-/:,.()$\x7d".data.contains c) 25 7 s

/-- `description` rule: the regex combined with a maximum length of 50. -/
def description_val (s : String) : Bool :=
  description_match s && decide (s.length ≤ 50)

/-- `LOCATION_DESCRIPTION = ^(?:[a-z\-\/\.\,\(\)]{1,20}(?: |$)){1,7}$` (ignore-case). -/
def location_description_match (s : String) : Bool :=
  word_groups_match (fun c => c.isAlpha || "-/.,()".data.contains c) 20 7 s

/-- `location_description` rule: the regex combined with a maximum length of 50. -/
def location_description_val (s : String) : Bool :=
  location_description_match s && decide (s.length ≤ 50)

/-- `beat` / `district` / `ward` / `community_area` rule: `series.str.isdigit()`. -/
def valid_int (s : String) : Bool := is_digit_str s

/-- `arrest` / `domestic` enumerated values. -/
def tf_valid : List String := ["true", "false"]

/-- `ZIP_CODES = ^\d{5}|\d{4}$` under `re.match`.  The alternation is
unanchored on the right: it accepts any string whose first five characters
are digits (regardless of what follows), or a string that is exactly four
digits. -/
def zip_codes_match (s : String) : Bool :=
  (decide (5 ≤ s.length) && (s.data.take 5).all Char.isDigit) ||
    (s.length == 4 && s.data.all Char.isDigit)

/-- Parse `-?\d+\.\d+` greedily from the front of a character list; returns
the matched characters and the rest. -/
def parse_signed_num (cs : List Char) : Option (List Char × List Char) :=
  let sign : List Char := if cs.head? == some '-' then ['-'] else []
  let cs1 := if cs.head? == some '-' then cs.tail else cs
  let intPart := cs1.takeWhile Char.isDigit
  let cs2 := cs1.dropWhile Char.isDigit
  if intPart.isEmpty then none
  else
    match cs2 with
    | '.' :: cs3 =>
      let frac := cs3.takeWhile Char.isDigit
      let cs4 := cs3.dropWhile Char.isDigit
      if frac.isEmpty then none
      else some (sign ++ intPart ++ ['.'] ++ frac, cs4)
    | _ => none

/-- Full match of `LOCATION = ^\((-?\d+\.\d+), ?(-?\d+\.\d+)\)$`, returning
the two capture groups (used both to validate and to extract). -/
def parse_location (s : String) : Option (String × String) :=
  match s.data with
  | '(' :: cs =>
    match parse_signed_num cs with
    | some g1 =>
      (match g1.2 with
       | ',' :: cs2 =>
         let cs3 := if cs2.head? == some ' ' then cs2.tail else cs2
         match parse_signed_num cs3 with
         | some g2 =>
           match g2.2 with
           | [')'] => some (g1.1.asString, g2.1.asString)
           | _ => none
         | none => none
       | _ => none)
    | none => none
  | _ => none

/-- The street part of `BLOCK`: `((?:[a-z\d] ?){1,20}){1,5}$` (ignore-case).
A unit is one alphanumeric character with an optional following space, so a
matching remainder starts with an alphanumeric character, never has two
consecutive spaces, contains only alphanumerics and spaces, and has between
1 and 100 alphanumeric characters (at most 5 outer groups of at most 20
units each). -/
def block_units_ok (cs : List Char) : Bool :=
  let isAl := fun (c : Char) => c.isAlpha || c.isDigit
  (cs.head?.map isAl).getD false &&
    cs.all (fun c => isAl c || c == ' ') &&
    (cs.zip cs.tail).all (fun q => !(q.1 == ' ' && q.2 == ' ')) &&
    !(cs.getLast? == some ' ' && cs.length == 1) &&
    decide ((cs.filter isAl).length ≤ 100)

/-- Full match of `BLOCK = ^(\d{1,4}X{1,4}) ((?:[a-z\d] ?){1,20}){1,5}$`
(ignore-case), returning the house-number capture and the street remainder.
(When the street part has more than 20 alphanumeric units the Python
group-2 capture would only hold the last repetition of the outer group;
no field rule in the sources depends on that case.) -/
def parse_block (s : String) : Option (String × String) :=
  let cs := s.data
  let ds := cs.takeWhile Char.isDigit
  let cs1 := cs.dropWhile Char.isDigit
  let xs := cs1.takeWhile (fun c => c == 'X' || c == 'x')
  let cs2 := cs1.dropWhile (fun c => c == 'X' || c == 'x')
  if !ds.isEmpty && decide (ds.length ≤ 4) && !xs.isEmpty && decide (xs.length ≤ 4) then
    match cs2 with
    | ' ' :: rest =>
      if block_units_ok rest then some ((ds ++ xs).asString, rest.asString) else none
    | _ => none
  else none

/-- Modelled from the spec: the `date_field` handling of
`data_utils.process_field` (the repository's `data_utils.py` is not among
the sources).  The spec says the processor tries to parse known date
formats, with `0000-00-00` as a configured null sentinel, so the known
format is modelled as ISO `YYYY-MM-DD`: a four-digit year, a two-digit
month in 01..12 and a two-digit day in 01..31; the parse yields the year
and month used by the `date_yr_mo` generator. -/
def parse_date (s : String) : Option (Nat × Nat) :=
  match splitOnChar '-' s.data with
  | [y, m, d] =>
    let mn := chars_to_nat m
    let dn := chars_to_nat d
    if y.all Char.isDigit && m.all Char.isDigit && d.all Char.isDigit
        && y.length == 4 && m.length == 2 && d.length == 2
        && decide (1 ≤ mn) && decide (mn ≤ 12) && decide (1 ≤ dn) && decide (dn ≤ 31)
    then some (chars_to_nat y, mn)
    else none
  | _ => none

/-- `date` validity: the value parses as a known date format (a mandatory
date value that cannot be parsed fails like any other mandatory failure). -/
def date_val (s : String) : Bool := (parse_date s).isSome

/-! ### Post-processing transforms and generators from `ChiTownScrub.ipynb` -/

/-- Python `str.title()`: the first letter of every run of letters is
upper-cased, the following letters lower-cased. -/
def str_title (s : String) : String :=
  ((s.data.foldl
      (fun acc c =>
        if c.isAlpha then
          ((if acc.2 then acc.1 ++ [c.toLower] else acc.1 ++ [c.toUpper]), true)
        else (acc.1 ++ [c], false))
      ([], false)).1).asString

/-- `capitalize_first = lambda series: series.str.title()` (null maps to null). -/
def capitalize_first : Value → Value
  | some s => some (str_title s)
  | none => none

/-- `zip_to_five`: a 4-character zip is prefixed with `0`, a 5-character zip
is kept, anything else (including null) becomes null (`np.select` default). -/
def zip_to_five : Value → Value
  | some s =>
    if s.length == 4 then some ("0" ++ s)
    else if s.length == 5 then some s
    else none
  | none => none

/-- The per-row update of `date_yr_mo`. -/
def date_yr_mo_row (field : String) (r : Row) : Row :=
  match getVal r field with
  | some s =>
    match parse_date s with
    | some ym =>
      setVal (setVal r "year" (some (toString ym.1))) "month" (some (toString ym.2))
    | none => setVal (setVal r "year" none) "month" none
  | none => setVal (setVal r "year" none) "month" none

/-- `date_yr_mo`: writes `year` and `month` columns derived from the
validated date column; unparseable or null input yields null outputs. -/
def date_yr_mo : Table → String → Table := fun tbl field =>
  mapRows (date_yr_mo_row field) tbl

/-- The per-row update of `block_num_addr`. -/
def block_num_addr_row (field : String) (r : Row) : Row :=
  match getVal r field with
  | some s =>
    match parse_block s with
    | some g => setVal (setVal r "house_num" (some g.1)) "street_addr" (some g.2)
    | none => setVal (setVal r "house_num" none) "street_addr" none
  | none => setVal (setVal r "house_num" none) "street_addr" none

/-- `block_num_addr`: extracts the `BLOCK` capture groups into `house_num`
and `street_addr` columns (null input or non-matching value yields nulls). -/
def block_num_addr : Table → String → Table := fun tbl field =>
  mapRows (block_num_addr_row field) tbl

/-- The per-row update of `location_lat_lon`. -/
def location_lat_lon_row (field : String) (r : Row) : Row :=
  match getVal r field with
  | some s =>
    match parse_location s with
    | some g => setVal (setVal r "latitude" (some g.1)) "longitude" (some g.2)
    | none => setVal (setVal r "latitude" none) "longitude" none
  | none => setVal (setVal r "latitude" none) "longitude" none

/-- `location_lat_lon`: extracts the `LOCATION` capture groups into
`latitude` and `longitude` columns (null or non-matching yields nulls). -/
def location_lat_lon : Table → String → Table := fun tbl field =>
  mapRows (location_lat_lon_row field) tbl

/-! ### The shared field processor

`data_utils.process_field` is not among the sources (only its callers in
`ChiTownScrub.ipynb` are), so it is modelled from the spec, section 4.1. -/

/-- A per-field rule configuration (spec section 3, "Field Rule"):
`validation` a predicate, `valid_values` an enumerated set (case-insensitive),
`other_nulls` sentinel strings treated as null, `post_process` ordered
(optional new-column-name, transform) pairs, `generated_cols` derived-column
generators, `drop_field` removal of the source column after generation. -/
structure Rule where
  validation : Option (String → Bool) := none
  valid_values : Option (List String) := none
  other_nulls : List String := []
  post_process : List (Option String × (Value → Value)) := []
  generated_cols : List (Table → String → Table) := []
  drop_field : Bool := false

/-- Validation mask for one cell (spec section 4.1, step 2): an enumerated
set is checked case-insensitively, a predicate on the present string;
null values are exempt unless the field is mandatory, and for a mandatory
field null always fails. -/
def validCell (rule : Rule) (mandatory : Bool) (v : Value) : Bool :=
  match v with
  | none => !mandatory
  | some s =>
    match rule.valid_values with
    | some vs => vs.contains (lower_str s)
    | none =>
      match rule.validation with
      | some p => p s
      | none => true

/-- The per-row update of null normalization. -/
def normalize_row (field : String) (sentinels : List String) (r : Row) : Row :=
  match getVal r field with
  | some s => if sentinels.contains s then setVal r field none else r
  | none => r

/-- Null normalization (spec section 4.1, step 1): configured sentinel
strings are treated as null. -/
def normalizeNulls (field : String) (sentinels : List String) : Table → Table :=
  mapRows (normalize_row field sentinels)

/-- The indices whose (normalized) value fails the field's rule
(spec section 4.1, step 3). -/
def failingIds (tbl : Table) (field : String) (rule : Rule) (mandatory : Bool) :
    List Nat :=
  (tbl.filter (fun p => !(validCell rule mandatory (getVal p.2 field)))).map Prod.fst

/-- Soft-reject nulling (spec section 4.1, step 5): each failing row's value
is copied to the `[col]_orig` shadow column and the field is set to null. -/
def applyShadow (field : String) (failing : List Nat) : Table → Table :=
  mapRowsIdx (fun p =>
    if failing.contains p.1 then
      setVal (setVal p.2 (field ++ "_orig") (getVal p.2 field)) field none
    else p.2)

/-- Post-processing (spec section 4.1, step 6): each transform in order
either overwrites the source column or writes a new column. -/
def applyPost (field : String) (pp : List (Option String × (Value → Value))) :
    Table → Table := fun tbl =>
  pp.foldl
    (fun t st => mapRows (fun r => setVal r (st.1.getD field) (st.2 (getVal r field))) t)
    tbl

/-- Column generation (spec section 4.1, step 7): each generator receives
the table and the column's current values and writes derived columns. -/
def applyGens (field : String) (gens : List (Table → String → Table)) :
    Table → Table := fun tbl =>
  gens.foldl (fun t g => g t field) tbl

/-- Source-column drop (spec section 4.1, step 8). -/
def applyDrop (field : String) (drop : Bool) : Table → Table := fun tbl =>
  if drop then mapRows (fun r => dropVal r field) tbl else tbl

/-- Modelled from the spec: `data_utils.process_field` (the repository's
`data_utils.py` is not among the sources).  Applies one field's full rule
set (spec section 4.1): null normalization, validation, reject recording,
soft nulling with shadow copy for non-mandatory fields (a mandatory field's
failing rows are left for the caller to remove), post-processing, column
generation, and optional source-column drop.  Returns the updated table and
the failing row indices recorded for this column. -/
def process_field (tbl : Table) (field : String) (rule : Rule) (mandatory : Bool) :
    Table × List Nat :=
  let t1 := normalizeNulls field rule.other_nulls tbl
  let failing := failingIds t1 field rule mandatory
  let t2 := if mandatory then t1 else applyShadow field failing t1
  (applyDrop field rule.drop_field
    (applyGens field rule.generated_cols
      (applyPost field rule.post_process t2)), failing)

/-- Run the field processor over a list of fields in order, threading the
table and collecting the per-field reject sets (the per-phase loops of
`ChiTownScrub.ipynb`). -/
def runFields (tbl : Table) (flds : List (String × Rule)) (mandatory : Bool) :
    Table × RejectRecord :=
  match flds with
  | [] => (tbl, [])
  | fr :: rest =>
    let step := process_field tbl fr.1 fr.2 mandatory
    let next := runFields step.1 rest mandatory
    (next.1, (fr.1, step.2) :: next.2)

/-! ### The two phases, translated from `ChiTownScrub.ipynb` -/

/-- The `id` rule: not null, must be digits. -/
def id_rule : Rule := { validation := some id_val }

/-- The `case_number` rule: not null, first two characters alphabetic. -/
def case_number_rule : Rule := { validation := some case_number_val }

/-- The `date` rule: not null, parseable, sentinel `0000-00-00` treated as
null, with the year/month generator. -/
def date_rule : Rule :=
  { validation := some date_val, other_nulls := ["0000-00-00"],
    generated_cols := [date_yr_mo] }

/-- The `nonnull_fields` configuration of `process_hard_rejects`. -/
def nonnull_fields : List (String × Rule) :=
  [("id", id_rule), ("case_number", case_number_rule), ("date", date_rule)]

/-- The hard-reject phase with an explicit field order: process every
mandatory field, then filter out the recorded rejects with the source's
sequential per-field removal loop
(`df_filt = df_filt.loc[~df_filt.index.isin(ids)]`). -/
def process_hard_rejects_with (flds : List (String × Rule)) (df : Table) :
    Table × RejectRecord :=
  let step := runFields df flds true
  (step.2.foldl
    (fun t fr => if fr.2.length > 0 then t.filter (fun p => !(fr.2.contains p.1)) else t)
    step.1, step.2)

/-- `process_hard_rejects` from `ChiTownScrub.ipynb`: works on a copy of the
raw table (`df_filt = df.copy()`), so the original input table is untouched;
returns the filtered copy and the hard-reject record. -/
def process_hard_rejects (df : Table) : Table × RejectRecord :=
  process_hard_rejects_with nonnull_fields df

/-- The `block` rule: `BLOCK` regex validation plus the house-number /
street-address generator. -/
def block_rule : Rule :=
  { validation := some (fun s => (parse_block s).isSome),
    generated_cols := [block_num_addr] }

/-- The `iucr` rule. -/
def iucr_rule : Rule := { validation := some iucr_match }

/-- The `primary_type` rule: regex validation plus title-casing. -/
def primary_type_rule : Rule :=
  { validation := some primary_type_match,
    post_process := [(none, capitalize_first)] }

/-- The `description` rule: regex-with-length validation plus title-casing. -/
def description_rule : Rule :=
  { validation := some description_val,
    post_process := [(none, capitalize_first)] }

/-- The `location_description` rule: regex-with-length validation plus
title-casing. -/
def location_description_rule : Rule :=
  { validation := some location_description_val,
    post_process := [(none, capitalize_first)] }

/-- The `arrest` rule: enumerated true/false. -/
def arrest_rule : Rule := { valid_values := some tf_valid }

/-- The `domestic` rule: enumerated true/false. -/
def domestic_rule : Rule := { valid_values := some tf_valid }

/-- The `beat` rule: integer string. -/
def beat_rule : Rule := { validation := some valid_int }

/-- The `district` rule: integer string. -/
def district_rule : Rule := { validation := some valid_int }

/-- The `ward` rule: integer string. -/
def ward_rule : Rule := { validation := some valid_int }

/-- The `community_area` rule: integer string. -/
def community_area_rule : Rule := { validation := some valid_int }

/-- The `location` rule: `LOCATION` regex validation, the latitude /
longitude generator, and the source field dropped after extraction. -/
def location_rule : Rule :=
  { validation := some (fun s => (parse_location s).isSome),
    generated_cols := [location_lat_lon], drop_field := true }

/-- The `zip_codes` rule: `ZIP_CODES` regex validation plus the
`zip_to_five` normalization. -/
def zip_codes_rule : Rule :=
  { validation := some zip_codes_match,
    post_process := [(none, zip_to_five)] }

/-- The `nullable_fields` configuration of `process_soft_rejects`,
in the source's iteration order. -/
def nullable_fields : List (String × Rule) :=
  [("block", block_rule),
   ("iucr", iucr_rule),
   ("primary_type", primary_type_rule),
   ("description", description_rule),
   ("location_description", location_description_rule),
   ("arrest", arrest_rule),
   ("domestic", domestic_rule),
   ("beat", beat_rule),
   ("district", district_rule),
   ("ward", ward_rule),
   ("community_area", community_area_rule),
   ("location", location_rule),
   ("zip_codes", zip_codes_rule)]

/-- `process_soft_rejects` from `ChiTownScrub.ipynb`: runs the field
processor over the optional fields on the hard-filtered table (in the
source the table is mutated in place and only the record is returned; here
the updated table is returned alongside it). -/
def process_soft_rejects (df_filt : Table) : Table × RejectRecord :=
  runFields df_filt nullable_fields false

/-- The 16 columns the notebook keeps before the two phases
(`df = df[keep_cols]`). -/
def keep_cols : List String :=
  ["id", "case_number", "date", "block", "iucr", "primary_type", "description",
   "location_description", "arrest", "domestic", "beat", "district", "ward",
   "community_area", "location", "zip_codes"]

/-! ### Reject analysis and report assembly

`data_utils.analyze_hard_and_soft_rejects` and
`data_utils.generate_reject_dfs` are not among the sources; they are
modelled from the spec, section 4.4. -/

/-- Modelled from the spec: the per-phase union of all affected row
identifiers computed by `data_utils.analyze_hard_and_soft_rejects`
(`data_utils.py` is not among the sources), kept duplicate-free. -/
def unionRejects (rej : RejectRecord) : List Nat :=
  rej.foldl (fun acc fr => acc ++ fr.2.filter (fun i => !(acc.contains i))) []

/-- Modelled from the spec: the ordered list of offending column names of
one rejected row (spec section 4.4), as used for the report's `cols`
annotation. -/
def rejectCols (rej : RejectRecord) (i : Nat) : List String :=
  (rej.filter (fun fr => fr.2.contains i)).map Prod.fst

/-- Modelled from the spec: the hard-reject report built by
`data_utils.generate_reject_dfs` (`data_utils.py` is not among the
sources).  Its rows are taken from the *original* input table — every row
whose identifier appears in the hard-reject record, exactly once —
augmented with the offending column list and the source file identifier. -/
def hard_reject_report (df : Table) (rej : RejectRecord) (fileName : String) :
    Table :=
  mapRowsIdx
    (fun p =>
      setVal (setVal p.2 "cols" (some (String.intercalate ", " (rejectCols rej p.1))))
        "file_name" (some fileName))
    (df.filter (fun p => (unionRejects rej).contains p.1))

/-! ### Generic table lemmas -/

theorem rowAtP_mapRowsIdx (f : Nat × Row → Row) (tbl : Table) (i : Nat) :
    rowAtP (mapRowsIdx f tbl) i
      = (rowAtP tbl i).map (fun p => (p.1, f p)) := by
  unfold rowAtP mapRowsIdx
  induction tbl with
  | nil => rfl
  | cons p t ih =>
    cases hb : (p.1 == i) with
    | true => simp [List.find?, hb]
    | false => simp [List.find?, hb, ih]

theorem cellVal_mapRowsIdx (f : Nat × Row → Row) (tbl : Table) (i : Nat) (c : String) :
    cellVal (mapRowsIdx f tbl) i c
      = match rowAtP tbl i with
        | some p => getVal (f p) c
        | none => none := by
  unfold cellVal
  rw [rowAtP_mapRowsIdx]
  cases rowAtP tbl i <;> rfl

theorem cellVal_mapRows (f : Row → Row) (tbl : Table) (i : Nat) (c : String) :
    cellVal (mapRows f tbl) i c
      = match rowAtP tbl i with
        | some p => getVal (f p.2) c
        | none => none := by
  unfold mapRows
  rw [cellVal_mapRowsIdx]

theorem cellVal_mapRows_pres (f : Row → Row) (tbl : Table) (i : Nat) (c : String)
    (h : ∀ r, getVal (f r) c = getVal r c) :
    cellVal (mapRows f tbl) i c = cellVal tbl i c := by
  rw [cellVal_mapRows]
  unfold cellVal
  cases rowAtP tbl i with
  | some p => exact h p.2
  | none => rfl

theorem map_fst_mapRowsIdx (f : Nat × Row → Row) (tbl : Table) :
    (mapRowsIdx f tbl).map Prod.fst = tbl.map Prod.fst := by
  unfold mapRowsIdx
  induction tbl with
  | nil => rfl
  | cons p t ih => simp_all

theorem map_fst_mapRows (f : Row → Row) (tbl : Table) :
    (mapRows f tbl).map Prod.fst = tbl.map Prod.fst :=
  map_fst_mapRowsIdx _ tbl

theorem rowAtP_filter_idx (q : Nat → Bool) (tbl : Table) (i : Nat) :
    rowAtP (tbl.filter (fun p => q p.1)) i
      = if q i then rowAtP tbl i else none := by
  unfold rowAtP
  induction tbl with
  | nil => simp
  | cons p t ih =>
    by_cases hpi : p.1 = i
    · cases hq : q p.1 with
      | true =>
        have h1 : List.filter (fun p => q p.1) (p :: t)
            = p :: List.filter (fun p => q p.1) t := by
          simp [List.filter_cons, hq]
        have hqi : q i = true := by rw [← hpi]; exact hq
        rw [h1, hqi, List.find?_cons_of_pos _ (by simp [hpi]),
          List.find?_cons_of_pos _ (by simp [hpi])]
        simp
      | false =>
        have h1 : List.filter (fun p => q p.1) (p :: t)
            = List.filter (fun p => q p.1) t := by
          simp [List.filter_cons, hq]
        have hqi : q i = false := by rw [← hpi]; exact hq
        rw [h1, ih, hqi]
        simp
    · have hb : (p.1 == i) = false := by
        simp only [beq_eq_false_iff_ne, ne_eq]; exact hpi
      cases hq : q p.1 with
      | true =>
        have h1 : List.filter (fun p => q p.1) (p :: t)
            = p :: List.filter (fun p => q p.1) t := by
          simp [List.filter_cons, hq]
        rw [h1, List.find?_cons_of_neg _ (by simp [hb]), ih]
        cases hqi : q i with
        | true => rw [List.find?_cons_of_neg _ (by simp [hb])]
        | false => rfl
      | false =>
        have h1 : List.filter (fun p => q p.1) (p :: t)
            = List.filter (fun p => q p.1) t := by
          simp [List.filter_cons, hq]
        rw [h1, ih]
        cases hqi : q i with
        | true => rw [List.find?_cons_of_neg _ (by simp [hb])]
        | false => rfl

theorem rowAtP_eq_some (tbl : Table) (i : Nat) (p : Nat × Row)
    (h : rowAtP tbl i = some p) : p ∈ tbl ∧ p.1 = i := by
  refine ⟨List.mem_of_find?_eq_some h, ?_⟩
  have := List.find?_some h
  simpa using this

theorem rowAtP_isSome_iff (tbl : Table) (i : Nat) :
    (rowAtP tbl i).isSome = true ↔ i ∈ tbl.map Prod.fst := by
  unfold rowAtP
  rw [List.find?_isSome]
  constructor
  · rintro ⟨p, hp, hpi⟩
    have : p.1 = i := by simpa using hpi
    exact this ▸ List.mem_map_of_mem Prod.fst hp
  · intro hi
    rcases List.mem_map.mp hi with ⟨p, hp, hpi⟩
    exact ⟨p, hp, by simp [hpi]⟩

theorem eq_of_mem_of_nodup_fst (tbl : Table) (p p' : Nat × Row)
    (hnd : (tbl.map Prod.fst).Nodup) (hp : p ∈ tbl) (hp' : p' ∈ tbl)
    (hfst : p.1 = p'.1) : p = p' := by
  induction tbl with
  | nil => cases hp
  | cons q t ih =>
    simp only [List.map_cons, List.nodup_cons] at hnd
    rcases List.mem_cons.mp hp with hpq | hpt
    · rcases List.mem_cons.mp hp' with hpq' | hpt'
      · exact hpq.trans hpq'.symm
      · exfalso
        apply hnd.1
        have hm : p'.1 ∈ List.map Prod.fst t := List.mem_map_of_mem Prod.fst hpt'
        rw [hpq] at hfst
        rw [hfst]
        exact hm
    · rcases List.mem_cons.mp hp' with hpq' | hpt'
      · exfalso
        apply hnd.1
        have hm : p.1 ∈ List.map Prod.fst t := List.mem_map_of_mem Prod.fst hpt
        rw [hpq'] at hfst
        rw [← hfst]
        exact hm
      · exact ih hnd.2 hpt hpt'

theorem rowAtP_of_mem_nodup (tbl : Table) (p : Nat × Row)
    (hnd : (tbl.map Prod.fst).Nodup) (hp : p ∈ tbl) :
    rowAtP tbl p.1 = some p := by
  have hs : (rowAtP tbl p.1).isSome = true :=
    (rowAtP_isSome_iff tbl p.1).mpr (List.mem_map_of_mem Prod.fst hp)
  cases hq : rowAtP tbl p.1 with
  | none => rw [hq] at hs; cases hs
  | some q =>
    obtain ⟨hqm, hqi⟩ := rowAtP_eq_some tbl p.1 q hq
    rw [eq_of_mem_of_nodup_fst tbl q p hnd hqm hp hqi]

theorem mem_failingIds_iff (tbl : Table) (field : String) (rule : Rule)
    (m : Bool) (i : Nat) :
    i ∈ failingIds tbl field rule m
      ↔ ∃ p ∈ tbl, p.1 = i ∧ validCell rule m (getVal p.2 field) = false := by
  unfold failingIds
  rw [List.mem_map]
  constructor
  · rintro ⟨p, hp, hpi⟩
    rw [List.mem_filter] at hp
    exact ⟨p, hp.1, hpi, by simpa using hp.2⟩
  · rintro ⟨p, hp, hpi, hbad⟩
    exact ⟨p, List.mem_filter.mpr ⟨hp, by simp [hbad]⟩, hpi⟩

theorem mem_failingIds_nodup (tbl : Table) (field : String) (rule : Rule)
    (m : Bool) (i : Nat) (p : Nat × Row)
    (hnd : (tbl.map Prod.fst).Nodup) (hp : rowAtP tbl i = some p) :
    i ∈ failingIds tbl field rule m
      ↔ validCell rule m (getVal p.2 field) = false := by
  obtain ⟨hpm, hpi⟩ := rowAtP_eq_some tbl i p hp
  rw [mem_failingIds_iff]
  constructor
  · rintro ⟨q, hq, hqi, hbad⟩
    have : q = p := eq_of_mem_of_nodup_fst tbl q p hnd hq hpm (hqi.trans hpi.symm)
    rw [← this]; exact hbad
  · intro hbad
    exact ⟨p, hpm, hpi, hbad⟩

theorem mem_unionRejects_aux (rej : RejectRecord) (acc : List Nat) (i : Nat) :
    i ∈ rej.foldl (fun acc fr => acc ++ fr.2.filter (fun j => !(acc.contains j))) acc
      ↔ i ∈ acc ∨ ∃ fr ∈ rej, i ∈ fr.2 := by
  induction rej generalizing acc with
  | nil => simp
  | cons fr rest ih =>
    simp only [List.foldl_cons]
    rw [ih]
    constructor
    · rintro (hm | hex)
      · rw [List.mem_append] at hm
        rcases hm with hacc | hflt
        · exact Or.inl hacc
        · rw [List.mem_filter] at hflt
          exact Or.inr ⟨fr, List.mem_cons_self fr rest, hflt.1⟩
      · rcases hex with ⟨fr', hfr', hi⟩
        exact Or.inr ⟨fr', List.mem_cons_of_mem fr hfr', hi⟩
    · rintro (hacc | ⟨fr', hfr', hi⟩)
      · exact Or.inl (List.mem_append.mpr (Or.inl hacc))
      · rcases List.mem_cons.mp hfr' with hfr1 | hfrrest
        · by_cases hin : i ∈ acc
          · exact Or.inl (List.mem_append.mpr (Or.inl hin))
          · refine Or.inl (List.mem_append.mpr (Or.inr ?_))
            rw [List.mem_filter]
            exact ⟨hfr1 ▸ hi, by simpa using hin⟩
        · exact Or.inr ⟨fr', hfrrest, hi⟩

theorem mem_unionRejects (rej : RejectRecord) (i : Nat) :
    i ∈ unionRejects rej ↔ ∃ fr ∈ rej, i ∈ fr.2 := by
  unfold unionRejects
  rw [mem_unionRejects_aux]
  simp

/-! ### Stage lemmas for the field processor -/

/-- A generator preserves the table's index column. -/
def genFstPres (g : Table → String → Table) : Prop :=
  ∀ t f, (g t f).map Prod.fst = t.map Prod.fst

/-- A generator leaves column `c` untouched in every row. -/
def genCellPres (g : Table → String → Table) (c : String) : Prop :=
  ∀ t f i, cellVal (g t f) i c = cellVal t i c

theorem cellVal_mapRowsIdx_pres (f : Nat × Row → Row) (tbl : Table) (i : Nat)
    (c : String) (h : ∀ p, getVal (f p) c = getVal p.2 c) :
    cellVal (mapRowsIdx f tbl) i c = cellVal tbl i c := by
  rw [cellVal_mapRowsIdx]
  unfold cellVal
  cases rowAtP tbl i with
  | some p => exact h p
  | none => rfl

theorem getVal_normalize_row_ne (field : String) (sent : List String) (r : Row)
    (c : String) (h : c ≠ field) :
    getVal (normalize_row field sent r) c = getVal r c := by
  unfold normalize_row
  cases hv : getVal r field with
  | some s =>
    show getVal (if sent.contains s = true then setVal r field none else r) c
      = getVal r c
    split
    · exact getVal_setVal_ne r field c none h
    · rfl
  | none => rfl

theorem getVal_date_yr_mo_row_ne (f : String) (r : Row) (c : String)
    (h1 : c ≠ "year") (h2 : c ≠ "month") :
    getVal (date_yr_mo_row f r) c = getVal r c := by
  unfold date_yr_mo_row
  cases hv : getVal r f with
  | some s =>
    show getVal
        (match parse_date s with
         | some ym =>
           setVal (setVal r "year" (some (toString ym.1))) "month"
             (some (toString ym.2))
         | none => setVal (setVal r "year" none) "month" none) c
      = getVal r c
    cases hp : parse_date s with
    | some ym =>
      show getVal
          (setVal (setVal r "year" (some (toString ym.1))) "month"
            (some (toString ym.2))) c
        = getVal r c
      rw [getVal_setVal_ne _ _ _ _ h2, getVal_setVal_ne _ _ _ _ h1]
    | none =>
      show getVal (setVal (setVal r "year" none) "month" none) c = getVal r c
      rw [getVal_setVal_ne _ _ _ _ h2, getVal_setVal_ne _ _ _ _ h1]
  | none =>
    show getVal (setVal (setVal r "year" none) "month" none) c = getVal r c
    rw [getVal_setVal_ne _ _ _ _ h2, getVal_setVal_ne _ _ _ _ h1]

theorem getVal_block_num_addr_row_ne (f : String) (r : Row) (c : String)
    (h1 : c ≠ "house_num") (h2 : c ≠ "street_addr") :
    getVal (block_num_addr_row f r) c = getVal r c := by
  unfold block_num_addr_row
  cases hv : getVal r f with
  | some s =>
    show getVal
        (match parse_block s with
         | some g => setVal (setVal r "house_num" (some g.1)) "street_addr" (some g.2)
         | none => setVal (setVal r "house_num" none) "street_addr" none) c
      = getVal r c
    cases hp : parse_block s with
    | some g =>
      show getVal (setVal (setVal r "house_num" (some g.1)) "street_addr" (some g.2)) c
        = getVal r c
      rw [getVal_setVal_ne _ _ _ _ h2, getVal_setVal_ne _ _ _ _ h1]
    | none =>
      show getVal (setVal (setVal r "house_num" none) "street_addr" none) c = getVal r c
      rw [getVal_setVal_ne _ _ _ _ h2, getVal_setVal_ne _ _ _ _ h1]
  | none =>
    show getVal (setVal (setVal r "house_num" none) "street_addr" none) c = getVal r c
    rw [getVal_setVal_ne _ _ _ _ h2, getVal_setVal_ne _ _ _ _ h1]

theorem getVal_location_lat_lon_row_ne (f : String) (r : Row) (c : String)
    (h1 : c ≠ "latitude") (h2 : c ≠ "longitude") :
    getVal (location_lat_lon_row f r) c = getVal r c := by
  unfold location_lat_lon_row
  cases hv : getVal r f with
  | some s =>
    show getVal
        (match parse_location s with
         | some g => setVal (setVal r "latitude" (some g.1)) "longitude" (some g.2)
         | none => setVal (setVal r "latitude" none) "longitude" none) c
      = getVal r c
    cases hp : parse_location s with
    | some g =>
      show getVal (setVal (setVal r "latitude" (some g.1)) "longitude" (some g.2)) c
        = getVal r c
      rw [getVal_setVal_ne _ _ _ _ h2, getVal_setVal_ne _ _ _ _ h1]
    | none =>
      show getVal (setVal (setVal r "latitude" none) "longitude" none) c = getVal r c
      rw [getVal_setVal_ne _ _ _ _ h2, getVal_setVal_ne _ _ _ _ h1]
  | none =>
    show getVal (setVal (setVal r "latitude" none) "longitude" none) c = getVal r c
    rw [getVal_setVal_ne _ _ _ _ h2, getVal_setVal_ne _ _ _ _ h1]

theorem cellVal_normalizeNulls_ne (field : String) (sent : List String)
    (tbl : Table) (i : Nat) (c : String) (h : c ≠ field) :
    cellVal (normalizeNulls field sent tbl) i c = cellVal tbl i c := by
  unfold normalizeNulls
  apply cellVal_mapRows_pres
  intro r
  exact getVal_normalize_row_ne field sent r c h

theorem cellVal_applyShadow_ne (field : String) (failing : List Nat)
    (tbl : Table) (i : Nat) (c : String) (h1 : c ≠ field)
    (h2 : c ≠ field ++ "_orig") :
    cellVal (applyShadow field failing tbl) i c = cellVal tbl i c := by
  unfold applyShadow
  apply cellVal_mapRowsIdx_pres
  intro p
  show getVal
      (if failing.contains p.1 = true then
        setVal (setVal p.2 (field ++ "_orig") (getVal p.2 field)) field none
      else p.2) c
    = getVal p.2 c
  split
  · rw [getVal_setVal_ne _ field c none h1, getVal_setVal_ne _ _ c _ h2]
  · rfl

theorem cellVal_applyPost_ne (field : String)
    (pp : List (Option String × (Value → Value))) (tbl : Table) (i : Nat)
    (c : String) (h : c ≠ field) (hpp : ∀ st ∈ pp, st.1 = none) :
    cellVal (applyPost field pp tbl) i c = cellVal tbl i c := by
  induction pp generalizing tbl with
  | nil => rfl
  | cons st rest ih =>
    have hst : st.1 = none := hpp st (List.mem_cons_self st rest)
    have hrest : ∀ st ∈ rest, st.1 = none :=
      fun s hs => hpp s (List.mem_cons_of_mem st hs)
    unfold applyPost
    rw [List.foldl_cons]
    have := ih (mapRows (fun r => setVal r (st.1.getD field) (st.2 (getVal r field))) tbl) hrest
    unfold applyPost at this
    rw [this]
    apply cellVal_mapRows_pres
    intro r
    rw [hst]
    exact getVal_setVal_ne r field c _ h

theorem cellVal_applyGens_pres (field : String)
    (gens : List (Table → String → Table)) (tbl : Table) (i : Nat) (c : String)
    (hg : ∀ g ∈ gens, genCellPres g c) :
    cellVal (applyGens field gens tbl) i c = cellVal tbl i c := by
  induction gens generalizing tbl with
  | nil => rfl
  | cons g rest ih =>
    unfold applyGens
    rw [List.foldl_cons]
    have hrest : ∀ g ∈ rest, genCellPres g c :=
      fun g hgm => hg g (List.mem_cons_of_mem _ hgm)
    have := ih (g tbl field) hrest
    unfold applyGens at this
    rw [this]
    exact hg g (List.mem_cons_self g rest) tbl field i

theorem cellVal_applyDrop_ne (field : String) (b : Bool) (tbl : Table)
    (i : Nat) (c : String) (h : c ≠ field) :
    cellVal (applyDrop field b tbl) i c = cellVal tbl i c := by
  unfold applyDrop
  cases b with
  | false => rfl
  | true =>
    simp only [if_pos]
    apply cellVal_mapRows_pres
    intro r
    exact getVal_dropVal_ne r field c h

theorem cellVal_process_field_ne (tbl : Table) (field : String) (rule : Rule)
    (m : Bool) (i : Nat) (c : String) (h1 : c ≠ field)
    (h2 : c ≠ field ++ "_orig")
    (hpp : ∀ st ∈ rule.post_process, st.1 = none)
    (hg : ∀ g ∈ rule.generated_cols, genCellPres g c) :
    cellVal (process_field tbl field rule m).1 i c = cellVal tbl i c := by
  unfold process_field
  simp only
  rw [cellVal_applyDrop_ne _ _ _ _ _ h1,
    cellVal_applyGens_pres _ _ _ _ _ hg,
    cellVal_applyPost_ne _ _ _ _ _ h1 hpp]
  cases m with
  | true => simp only [if_pos]; exact cellVal_normalizeNulls_ne _ _ _ _ _ h1
  | false =>
    simp only [Bool.false_eq_true, if_false]
    rw [cellVal_applyShadow_ne _ _ _ _ _ h1 h2]
    exact cellVal_normalizeNulls_ne _ _ _ _ _ h1

theorem map_fst_normalizeNulls (field : String) (sent : List String) (tbl : Table) :
    (normalizeNulls field sent tbl).map Prod.fst = tbl.map Prod.fst :=
  map_fst_mapRows _ tbl

theorem map_fst_applyShadow (field : String) (failing : List Nat) (tbl : Table) :
    (applyShadow field failing tbl).map Prod.fst = tbl.map Prod.fst :=
  map_fst_mapRowsIdx _ tbl

theorem map_fst_applyPost (field : String)
    (pp : List (Option String × (Value → Value))) (tbl : Table) :
    (applyPost field pp tbl).map Prod.fst = tbl.map Prod.fst := by
  induction pp generalizing tbl with
  | nil => rfl
  | cons st rest ih =>
    unfold applyPost
    rw [List.foldl_cons]
    have := ih (mapRows (fun r => setVal r (st.1.getD field) (st.2 (getVal r field))) tbl)
    unfold applyPost at this
    rw [this, map_fst_mapRows]

theorem map_fst_applyGens (field : String)
    (gens : List (Table → String → Table)) (tbl : Table)
    (hg : ∀ g ∈ gens, genFstPres g) :
    (applyGens field gens tbl).map Prod.fst = tbl.map Prod.fst := by
  induction gens generalizing tbl with
  | nil => rfl
  | cons g rest ih =>
    unfold applyGens
    rw [List.foldl_cons]
    have hrest : ∀ g ∈ rest, genFstPres g :=
      fun g hgm => hg g (List.mem_cons_of_mem _ hgm)
    have := ih (g tbl field) hrest
    unfold applyGens at this
    rw [this]
    exact hg g (List.mem_cons_self g rest) tbl field

theorem map_fst_applyDrop (field : String) (b : Bool) (tbl : Table) :
    (applyDrop field b tbl).map Prod.fst = tbl.map Prod.fst := by
  unfold applyDrop
  cases b with
  | false => rfl
  | true => simp only [if_pos]; exact map_fst_mapRows _ tbl

theorem map_fst_process_field (tbl : Table) (field : String) (rule : Rule)
    (m : Bool) (hg : ∀ g ∈ rule.generated_cols, genFstPres g) :
    ((process_field tbl field rule m).1).map Prod.fst = tbl.map Prod.fst := by
  unfold process_field
  simp only
  rw [map_fst_applyDrop, map_fst_applyGens _ _ _ hg, map_fst_applyPost]
  cases m with
  | true => simp only [if_pos]; exact map_fst_normalizeNulls _ _ _
  | false =>
    simp only [Bool.false_eq_true, if_false]
    rw [map_fst_applyShadow]
    exact map_fst_normalizeNulls _ _ _

/-! ### The concrete generators preserve indices and untouched columns -/

theorem genFstPres_date_yr_mo : genFstPres date_yr_mo := by
  intro t f
  exact map_fst_mapRows _ t

theorem genFstPres_block_num_addr : genFstPres block_num_addr := by
  intro t f
  exact map_fst_mapRows _ t

theorem genFstPres_location_lat_lon : genFstPres location_lat_lon := by
  intro t f
  exact map_fst_mapRows _ t

theorem genCellPres_date_yr_mo (c : String) (h1 : c ≠ "year") (h2 : c ≠ "month") :
    genCellPres date_yr_mo c := by
  intro t f i
  unfold date_yr_mo
  apply cellVal_mapRows_pres
  intro r
  exact getVal_date_yr_mo_row_ne f r c h1 h2

theorem genCellPres_block_num_addr (c : String) (h1 : c ≠ "house_num")
    (h2 : c ≠ "street_addr") : genCellPres block_num_addr c := by
  intro t f i
  unfold block_num_addr
  apply cellVal_mapRows_pres
  intro r
  exact getVal_block_num_addr_row_ne f r c h1 h2

theorem genCellPres_location_lat_lon (c : String) (h1 : c ≠ "latitude")
    (h2 : c ≠ "longitude") : genCellPres location_lat_lon c := by
  intro t f i
  unfold location_lat_lon
  apply cellVal_mapRows_pres
  intro r
  exact getVal_location_lat_lon_row_ne f r c h1 h2

/-! ### Hard-phase characterization lemmas -/

theorem contains_iff_mem_nat (l : List Nat) (i : Nat) :
    l.contains i = true ↔ i ∈ l :=
  List.elem_iff

theorem mapRows_eq_self (f : Row → Row) (tbl : Table)
    (h : ∀ p ∈ tbl, f p.2 = p.2) : mapRows f tbl = tbl := by
  unfold mapRows mapRowsIdx
  have h2 : ∀ p ∈ tbl, (fun p : Nat × Row => (p.1, f p.2)) p = (fun p => p) p := by
    intro p hp
    simp only
    rw [h p hp]
  rw [List.map_congr_left h2]
  exact List.map_id' tbl

theorem normalize_row_nil (field : String) (r : Row) :
    normalize_row field [] r = r := by
  unfold normalize_row
  cases hv : getVal r field with
  | some s =>
    show (if List.contains [] s = true then setVal r field none else r) = r
    simp
  | none => rfl

theorem normalizeNulls_nil (field : String) (tbl : Table) :
    normalizeNulls field [] tbl = tbl := by
  unfold normalizeNulls
  apply mapRows_eq_self
  intro p _
  exact normalize_row_nil field p.2

theorem process_field_plain (tbl : Table) (field : String) (rule : Rule)
    (h1 : rule.other_nulls = []) (h2 : rule.post_process = [])
    (h3 : rule.generated_cols = []) (h4 : rule.drop_field = false) :
    process_field tbl field rule true = (tbl, failingIds tbl field rule true) := by
  unfold process_field
  simp only [h1, h2, h3, h4, normalizeNulls_nil]
  rfl

theorem removal_foldl_eq_filter (rec : RejectRecord) (T : Table) :
    rec.foldl
      (fun t fr => if fr.2.length > 0 then t.filter (fun p => !(fr.2.contains p.1)) else t) T
      = T.filter (fun p => rec.all (fun fr => !(fr.2.contains p.1))) := by
  induction rec generalizing T with
  | nil => simp
  | cons fr rest ih =>
    rw [List.foldl_cons, ih]
    by_cases hlen : fr.2.length > 0
    · rw [if_pos hlen, List.filter_filter]
      apply List.filter_congr
      intro p _
      simp [List.all_cons, Bool.and_comm]
    · rw [if_neg hlen]
      have hnil : fr.2 = [] := List.eq_nil_of_length_eq_zero (by omega)
      apply List.filter_congr
      intro p _
      simp [List.all_cons, hnil]

theorem process_hard_rejects_with_eq (flds : List (String × Rule)) (df : Table) :
    process_hard_rejects_with flds df
      = ((runFields df flds true).1.filter
          (fun p => (runFields df flds true).2.all (fun fr => !(fr.2.contains p.1))),
         (runFields df flds true).2) := by
  simp only [process_hard_rejects_with]
  rw [removal_foldl_eq_filter]

theorem all_notContains_eq_not_unionContains (rec : RejectRecord) (i : Nat) :
    rec.all (fun fr => !(fr.2.contains i)) = !((unionRejects rec).contains i) := by
  by_cases hm : i ∈ unionRejects rec
  · have hc : (unionRejects rec).contains i = true := (contains_iff_mem_nat _ i).mpr hm
    rw [hc]
    rcases (mem_unionRejects rec i).mp hm with ⟨fr, hfr, hi⟩
    cases hall : rec.all (fun fr => !(fr.2.contains i)) with
    | false => rfl
    | true =>
      exfalso
      rw [List.all_eq_true] at hall
      have h2 := hall fr hfr
      have hcont : fr.2.contains i = true := (contains_iff_mem_nat _ i).mpr hi
      simp [hcont] at h2
      exact h2 hi
  · have hc : (unionRejects rec).contains i = false := by
      cases h : (unionRejects rec).contains i with
      | false => rfl
      | true => exact absurd ((contains_iff_mem_nat _ i).mp h) hm
    rw [hc]
    have : rec.all (fun fr => !(fr.2.contains i)) = true := by
      rw [List.all_eq_true]
      intro fr hfr
      have : i ∉ fr.2 := fun hi => hm ((mem_unionRejects rec i).mpr ⟨fr, hfr, hi⟩)
      cases h : fr.2.contains i with
      | false => rfl
      | true => exact absurd ((contains_iff_mem_nat _ i).mp h) this
    rw [this]
    rfl

/-- The date-field table transformation of the hard phase. -/
def date_proc (tbl : Table) : Table :=
  (process_field tbl "date" date_rule true).1

theorem date_proc_eq (tbl : Table) :
    date_proc tbl
      = date_yr_mo (normalizeNulls "date" ["0000-00-00"] tbl) "date" := by
  unfold date_proc process_field date_rule
  rfl

theorem runFields_nonnull (df : Table) :
    runFields df nonnull_fields true
      = (date_proc df,
         [("id", failingIds df "id" id_rule true),
          ("case_number", failingIds df "case_number" case_number_rule true),
          ("date", failingIds (normalizeNulls "date" ["0000-00-00"] df) "date" date_rule true)]) := by
  have hid : process_field df "id" id_rule true = (df, failingIds df "id" id_rule true) :=
    process_field_plain df "id" id_rule rfl rfl rfl rfl
  have hcn : process_field df "case_number" case_number_rule true
      = (df, failingIds df "case_number" case_number_rule true) :=
    process_field_plain df "case_number" case_number_rule rfl rfl rfl rfl
  have hdt : process_field df "date" date_rule true
      = (date_proc df,
         failingIds (normalizeNulls "date" ["0000-00-00"] df) "date" date_rule true) := rfl
  simp only [nonnull_fields, runFields, hid, hcn, hdt]

theorem failingIds_mapRows_pres (f : Row → Row) (tbl : Table) (field : String)
    (rule : Rule) (m : Bool) (h : ∀ r, getVal (f r) field = getVal r field) :
    failingIds (mapRows f tbl) field rule m = failingIds tbl field rule m := by
  unfold failingIds mapRows mapRowsIdx
  rw [List.filter_map, List.map_map]
  have h1 : (Prod.fst ∘ fun p : Nat × Row => (p.1, f p.2)) = Prod.fst := rfl
  rw [h1]
  congr 1
  apply List.filter_congr
  intro p _
  simp only [Function.comp]
  rw [h p.2]

theorem failingIds_normalizeNulls_ne (fld : String) (sent : List String)
    (tbl : Table) (field : String) (rule : Rule) (m : Bool) (h : field ≠ fld) :
    failingIds (normalizeNulls fld sent tbl) field rule m
      = failingIds tbl field rule m := by
  unfold normalizeNulls
  apply failingIds_mapRows_pres
  intro r
  exact getVal_normalize_row_ne fld sent r field h

theorem failingIds_date_yr_mo_ne (tbl : Table) (f field : String) (rule : Rule)
    (m : Bool) (h1 : field ≠ "year") (h2 : field ≠ "month") :
    failingIds (date_yr_mo tbl f) field rule m = failingIds tbl field rule m := by
  unfold date_yr_mo
  apply failingIds_mapRows_pres
  intro r
  exact getVal_date_yr_mo_row_ne f r field h1 h2

theorem failingIds_date_proc (tbl : Table) (field : String) (rule : Rule)
    (m : Bool) (h1 : field ≠ "date") (h2 : field ≠ "year") (h3 : field ≠ "month") :
    failingIds (date_proc tbl) field rule m = failingIds tbl field rule m := by
  rw [date_proc_eq, failingIds_date_yr_mo_ne _ _ _ _ _ h2 h3,
    failingIds_normalizeNulls_ne _ _ _ _ _ _ h1]

theorem map_fst_date_proc (tbl : Table) :
    (date_proc tbl).map Prod.fst = tbl.map Prod.fst := by
  unfold date_proc
  apply map_fst_process_field
  intro g hg
  unfold date_rule at hg
  simp only [List.mem_singleton] at hg
  rw [hg]
  exact genFstPres_date_yr_mo

theorem contains_eq_of_mem_iff (l1 l2 : List Nat)
    (h : ∀ i, i ∈ l1 ↔ i ∈ l2) (i : Nat) : l1.contains i = l2.contains i := by
  by_cases hm : i ∈ l1
  · rw [(contains_iff_mem_nat l1 i).mpr hm, (contains_iff_mem_nat l2 i).mpr ((h i).mp hm)]
  · have hl1 : l1.contains i = false := by
      cases hc : l1.contains i with
      | false => rfl
      | true => exact absurd ((contains_iff_mem_nat _ _).mp hc) hm
    have hl2 : l2.contains i = false := by
      cases hc : l2.contains i with
      | false => rfl
      | true => exact absurd ((contains_iff_mem_nat _ _).mp hc) (fun hm2 => hm ((h i).mpr hm2))
    rw [hl1, hl2]

theorem mem_unionRejects_three (a b c : String) (f1 f2 f3 : List Nat) (i : Nat) :
    i ∈ unionRejects [(a, f1), (b, f2), (c, f3)]
      ↔ i ∈ f1 ∨ i ∈ f2 ∨ i ∈ f3 := by
  rw [mem_unionRejects]
  constructor
  · rintro ⟨fr, hfr, hi⟩
    simp only [List.mem_cons, List.mem_singleton] at hfr
    rcases hfr with h | h | h | h
    · rw [h] at hi; exact Or.inl hi
    · rw [h] at hi; exact Or.inr (Or.inl hi)
    · rw [h] at hi; exact Or.inr (Or.inr hi)
    · cases h
  · rintro (h | h | h)
    · exact ⟨(a, f1), by simp, h⟩
    · exact ⟨(b, f2), by simp, h⟩
    · exact ⟨(c, f3), by simp, h⟩

/-- The hard-reject record, with every per-field set computed against the
original unfiltered table. -/
theorem hard_record_char (df : Table) :
    (process_hard_rejects df).2
      = [("id", failingIds df "id" id_rule true),
         ("case_number", failingIds df "case_number" case_number_rule true),
         ("date", failingIds (normalizeNulls "date" ["0000-00-00"] df) "date" date_rule true)] := by
  unfold process_hard_rejects
  rw [process_hard_rejects_with_eq, runFields_nonnull]

/-- The hard-filtered table is the processed table minus the union of the
reject sets. -/
theorem hard_table_char (df : Table) :
    (process_hard_rejects df).1
      = (date_proc df).filter
          (fun p => !((unionRejects (process_hard_rejects df).2).contains p.1)) := by
  unfold process_hard_rejects
  rw [process_hard_rejects_with_eq]
  simp only
  rw [runFields_nonnull]
  simp only
  apply List.filter_congr
  intro p _
  rw [all_notContains_eq_not_unionContains]

/-! ### Order independence helpers for the hard phase -/

theorem process_field_date_eq (tbl : Table) :
    process_field tbl "date" date_rule true
      = (date_proc tbl,
         failingIds (normalizeNulls "date" ["0000-00-00"] tbl) "date" date_rule true) := rfl

theorem process_field_id_on_date_proc (df : Table) :
    process_field (date_proc df) "id" id_rule true
      = (date_proc df, failingIds df "id" id_rule true) := by
  rw [process_field_plain (date_proc df) "id" id_rule rfl rfl rfl rfl,
    failingIds_date_proc df "id" id_rule true (by decide) (by decide) (by decide)]

theorem process_field_cn_on_date_proc (df : Table) :
    process_field (date_proc df) "case_number" case_number_rule true
      = (date_proc df, failingIds df "case_number" case_number_rule true) := by
  rw [process_field_plain (date_proc df) "case_number" case_number_rule rfl rfl rfl rfl,
    failingIds_date_proc df "case_number" case_number_rule true (by decide) (by decide)
      (by decide)]

theorem hard_with_order (flds : List (String × Rule)) (df : Table)
    (htbl : (runFields df flds true).1 = date_proc df)
    (hmem : ∀ i, i ∈ unionRejects (runFields df flds true).2
      ↔ i ∈ unionRejects (process_hard_rejects df).2) :
    (process_hard_rejects_with flds df).1 = (process_hard_rejects df).1 := by
  rw [process_hard_rejects_with_eq]
  simp only
  rw [htbl, hard_table_char]
  apply List.filter_congr
  intro p _
  rw [all_notContains_eq_not_unionContains]
  rw [contains_eq_of_mem_iff _ _ hmem]

theorem runFields_ord_id_dt_cn (df : Table) :
    runFields df [("id", id_rule), ("date", date_rule), ("case_number", case_number_rule)] true
      = (date_proc df,
         [("id", failingIds df "id" id_rule true),
          ("date", failingIds (normalizeNulls "date" ["0000-00-00"] df) "date" date_rule true),
          ("case_number", failingIds df "case_number" case_number_rule true)]) := by
  simp only [runFields, process_field_plain df "id" id_rule rfl rfl rfl rfl,
    process_field_date_eq df, process_field_cn_on_date_proc df]

theorem runFields_ord_cn_id_dt (df : Table) :
    runFields df [("case_number", case_number_rule), ("id", id_rule), ("date", date_rule)] true
      = (date_proc df,
         [("case_number", failingIds df "case_number" case_number_rule true),
          ("id", failingIds df "id" id_rule true),
          ("date", failingIds (normalizeNulls "date" ["0000-00-00"] df) "date" date_rule true)]) := by
  simp only [runFields, process_field_plain df "case_number" case_number_rule rfl rfl rfl rfl,
    process_field_plain df "id" id_rule rfl rfl rfl rfl, process_field_date_eq df]

theorem runFields_ord_cn_dt_id (df : Table) :
    runFields df [("case_number", case_number_rule), ("date", date_rule), ("id", id_rule)] true
      = (date_proc df,
         [("case_number", failingIds df "case_number" case_number_rule true),
          ("date", failingIds (normalizeNulls "date" ["0000-00-00"] df) "date" date_rule true),
          ("id", failingIds df "id" id_rule true)]) := by
  simp only [runFields, process_field_plain df "case_number" case_number_rule rfl rfl rfl rfl,
    process_field_date_eq df, process_field_id_on_date_proc df]

theorem runFields_ord_dt_id_cn (df : Table) :
    runFields df [("date", date_rule), ("id", id_rule), ("case_number", case_number_rule)] true
      = (date_proc df,
         [("date", failingIds (normalizeNulls "date" ["0000-00-00"] df) "date" date_rule true),
          ("id", failingIds df "id" id_rule true),
          ("case_number", failingIds df "case_number" case_number_rule true)]) := by
  simp only [runFields, process_field_date_eq df, process_field_id_on_date_proc df,
    process_field_cn_on_date_proc df]

theorem runFields_ord_dt_cn_id (df : Table) :
    runFields df [("date", date_rule), ("case_number", case_number_rule), ("id", id_rule)] true
      = (date_proc df,
         [("date", failingIds (normalizeNulls "date" ["0000-00-00"] df) "date" date_rule true),
          ("case_number", failingIds df "case_number" case_number_rule true),
          ("id", failingIds df "id" id_rule true)]) := by
  simp only [runFields, process_field_date_eq df, process_field_cn_on_date_proc df,
    process_field_id_on_date_proc df]

/-! ### Claim theorems -/

/-- C1: for every row of the original input table, after the hard-reject
phase and reject-report assembly the row appears in exactly one of the
clean (filtered) table and the hard-reject report — never in both and
never in neither. -/
theorem C1_partition_clean_vs_hard_report (df : Table) (fileName : String)
    (i : Nat) (h : hasRow df i = true) :
    hasRow (process_hard_rejects df).1 i = true
      ↔ ¬ (hasRow (hard_reject_report df (process_hard_rejects df).2 fileName) i
            = true) := by
  have hfil : hasRow (process_hard_rejects df).1 i
      = !((unionRejects (process_hard_rejects df).2).contains i) := by
    unfold hasRow
    rw [hard_table_char,
      rowAtP_filter_idx
        (fun j => !((unionRejects (process_hard_rejects df).2).contains j))
        (date_proc df) i]
    cases hc : (unionRejects (process_hard_rejects df).2).contains i with
    | true => simp [hc]
    | false =>
      have hrow : (rowAtP (date_proc df) i).isSome = true := by
        rw [rowAtP_isSome_iff, map_fst_date_proc]
        exact (rowAtP_isSome_iff df i).mp h
      simp [hc, hrow]
  have hrep : hasRow (hard_reject_report df (process_hard_rejects df).2 fileName) i
      = (unionRejects (process_hard_rejects df).2).contains i := by
    unfold hasRow hard_reject_report
    rw [rowAtP_mapRowsIdx,
      rowAtP_filter_idx
        (fun j => (unionRejects (process_hard_rejects df).2).contains j) df i]
    cases hc : (unionRejects (process_hard_rejects df).2).contains i with
    | true =>
      simp only [hc, if_true]
      cases hr : rowAtP df i with
      | some p => rfl
      | none =>
        unfold hasRow at h
        rw [hr] at h
        cases h
    | false => simp [hc]
  rw [hfil, hrep]
  cases hc : (unionRejects (process_hard_rejects df).2).contains i with
  | true => simp
  | false => simp

/-- Concrete witness for C1: a two-row table whose second row has a
non-digit id. -/
def c1df : Table :=
  [(0, [("id", some "10"), ("case_number", some "HY12"), ("date", some "2019-05-01")]),
   (1, [("id", some "1x"), ("case_number", some "HY13"), ("date", some "2019-05-01")])]

theorem C1_partition_clean_vs_hard_report_witness :
    hasRow c1df 1 = true
      ∧ (hasRow (process_hard_rejects c1df).1 1 = true
          ↔ ¬ (hasRow (hard_reject_report c1df (process_hard_rejects c1df).2 "f0.csv") 1
                = true)) :=
  ⟨by decide, C1_partition_clean_vs_hard_report c1df "f0.csv" 1 (by decide)⟩

/-- C2: every mandatory field's reject set is computed against the original
unfiltered table (hard-reject identifiers are relative to the pre-filter
indexing), the sequential per-field removal loop equals a single removal of
the union of all mandatory reject sets, and the filtered table does not
depend on the order in which the mandatory fields are evaluated. -/
theorem C2_hard_union_removal_order_independent (df : Table) :
    ((process_hard_rejects df).2
        = nonnull_fields.map (fun fr => (fr.1, (process_field df fr.1 fr.2 true).2)))
    ∧ ((process_hard_rejects df).1
        = (runFields df nonnull_fields true).1.filter
            (fun p => !((unionRejects (process_hard_rejects df).2).contains p.1)))
    ∧ ((process_hard_rejects_with
          [("id", id_rule), ("date", date_rule), ("case_number", case_number_rule)] df).1
        = (process_hard_rejects df).1)
    ∧ ((process_hard_rejects_with
          [("case_number", case_number_rule), ("id", id_rule), ("date", date_rule)] df).1
        = (process_hard_rejects df).1)
    ∧ ((process_hard_rejects_with
          [("case_number", case_number_rule), ("date", date_rule), ("id", id_rule)] df).1
        = (process_hard_rejects df).1)
    ∧ ((process_hard_rejects_with
          [("date", date_rule), ("id", id_rule), ("case_number", case_number_rule)] df).1
        = (process_hard_rejects df).1)
    ∧ ((process_hard_rejects_with
          [("date", date_rule), ("case_number", case_number_rule), ("id", id_rule)] df).1
        = (process_hard_rejects df).1) := by
  refine ⟨?_, ?_, ?_, ?_, ?_, ?_, ?_⟩
  · rw [hard_record_char]
    have h1 : (process_field df "id" id_rule true).2 = failingIds df "id" id_rule true := by
      rw [process_field_plain df "id" id_rule rfl rfl rfl rfl]
    have h2 : (process_field df "case_number" case_number_rule true).2
        = failingIds df "case_number" case_number_rule true := by
      rw [process_field_plain df "case_number" case_number_rule rfl rfl rfl rfl]
    simp [nonnull_fields, h1, h2, process_field_date_eq df]
  · rw [hard_table_char, runFields_nonnull]
  · apply hard_with_order
    · rw [runFields_ord_id_dt_cn]
    · intro i
      rw [runFields_ord_id_dt_cn, hard_record_char]
      simp only
      rw [mem_unionRejects_three, mem_unionRejects_three]
      tauto
  · apply hard_with_order
    · rw [runFields_ord_cn_id_dt]
    · intro i
      rw [runFields_ord_cn_id_dt, hard_record_char]
      simp only
      rw [mem_unionRejects_three, mem_unionRejects_three]
      tauto
  · apply hard_with_order
    · rw [runFields_ord_cn_dt_id]
    · intro i
      rw [runFields_ord_cn_dt_id, hard_record_char]
      simp only
      rw [mem_unionRejects_three, mem_unionRejects_three]
      tauto
  · apply hard_with_order
    · rw [runFields_ord_dt_id_cn]
    · intro i
      rw [runFields_ord_dt_id_cn, hard_record_char]
      simp only
      rw [mem_unionRejects_three, mem_unionRejects_three]
      tauto
  · apply hard_with_order
    · rw [runFields_ord_dt_cn_id]
    · intro i
      rw [runFields_ord_dt_cn_id, hard_record_char]
      simp only
      rw [mem_unionRejects_three, mem_unionRejects_three]
      tauto

/-- Consult a reject record for one column's reject set (dictionary access
on the per-phase record; a column never recorded has an empty set). -/
def rejectsOf (rec : RejectRecord) (c : String) : List Nat :=
  match rec.lookup c with
  | some l => l
  | none => []

/-- Concrete table for C5: row 1 has a case number that does not start with
two letters. -/
def c5df : Table :=
  [(0, [("id", some "11"), ("case_number", some "HY123456"), ("date", some "2019-05-01")]),
   (1, [("id", some "12"), ("case_number", some "123456"), ("date", some "2019-05-01")])]

/-- C5: `"HY123456"` passes the mandatory case-number validation (its first
two characters are letters), `"123456"` fails it, and on a concrete table
the failing row is hard-rejected and recorded under `case_number` while the
passing row survives. -/
theorem C5_case_number_rule_examples :
    case_number_val "HY123456" = true
    ∧ case_number_val "123456" = false
    ∧ rejectsOf (process_hard_rejects c5df).2 "case_number" = [1]
    ∧ hasRow (process_hard_rejects c5df).1 0 = true
    ∧ hasRow (process_hard_rejects c5df).1 1 = false := by
  refine ⟨rfl, rfl, ?_, ?_, ?_⟩ <;> rfl

/-- C8: a row whose `id` is null or contains any non-digit character is
excluded from the clean table by the hard-reject phase, regardless of its
other fields. -/
theorem C8_null_or_nondigit_id_excluded (df : Table) (i : Nat) (p : Nat × Row)
    (hp : rowAtP df i = some p)
    (hbad : getVal p.2 "id" = none
      ∨ ∃ s, getVal p.2 "id" = some s ∧ ∃ c ∈ s.data, ¬ c.isDigit = true) :
    hasRow (process_hard_rejects df).1 i = false := by
  obtain ⟨hpm, hpi⟩ := rowAtP_eq_some df i p hp
  have hfail : validCell id_rule true (getVal p.2 "id") = false := by
    rcases hbad with hnone | ⟨s, hs, c, hc, hcd⟩
    · rw [hnone]; rfl
    · rw [hs]
      show id_val s = false
      unfold id_val is_digit_str
      have hall : s.data.all Char.isDigit = false := by
        cases ha : s.data.all Char.isDigit with
        | false => rfl
        | true =>
          rw [List.all_eq_true] at ha
          exact absurd (ha c hc) hcd
      rw [hall, Bool.and_false]
  have hmem : i ∈ failingIds df "id" id_rule true :=
    (mem_failingIds_iff df "id" id_rule true i).mpr ⟨p, hpm, hpi, hfail⟩
  have hu : i ∈ unionRejects (process_hard_rejects df).2 := by
    rw [mem_unionRejects, hard_record_char]
    exact ⟨("id", failingIds df "id" id_rule true), by simp, hmem⟩
  have hc2 : (unionRejects (process_hard_rejects df).2).contains i = true :=
    (contains_iff_mem_nat _ i).mpr hu
  unfold hasRow
  rw [hard_table_char,
    rowAtP_filter_idx
      (fun j => !((unionRejects (process_hard_rejects df).2).contains j))
      (date_proc df) i]
  simp [hc2]
  intro hni
  exact absurd hu hni

/-- Concrete table for C8's witness: one row with a null id but otherwise
valid fields. -/
def c8df : Table :=
  [(0, [("id", none), ("case_number", some "HY12"), ("date", some "2019-05-01")])]

theorem C8_null_or_nondigit_id_excluded_witness :
    hasRow (process_hard_rejects c8df).1 0 = false :=
  C8_null_or_nondigit_id_excluded c8df 0
    (0, [("id", none), ("case_number", some "HY12"), ("date", some "2019-05-01")])
    (by decide) (Or.inl (by decide))

/-! ### Row uniformity: after `setVal`, every binding of the key holds the
written value, which makes a second identical write a no-op. -/

/-- Every binding of key `c` in the row holds value `v`. -/
def uniformAt (r : Row) (c : String) (v : Value) : Prop :=
  ∀ q ∈ r, q.1 = c → q.2 = v

theorem lookup_none_not_mem (r : Row) (c : String) (h : r.lookup c = none) :
    ∀ q ∈ r, q.1 ≠ c := by
  induction r with
  | nil => intro q hq; cases hq
  | cons q' t ih =>
    intro q hq hqc
    rcases List.mem_cons.mp hq with h1 | h1
    · subst h1
      have hb : (c == q.1) = true := by simp [beq_iff_eq, hqc]
      unfold List.lookup at h
      rw [hb] at h
      cases h
    · cases hb : (c == q'.1) with
      | true =>
        unfold List.lookup at h
        rw [hb] at h
        cases h
      | false =>
        unfold List.lookup at h
        rw [hb] at h
        exact ih h q h1 hqc

theorem uniformAt_setVal_self (r : Row) (c : String) (v : Value) :
    uniformAt (setVal r c v) c v := by
  intro q hq hqc
  unfold setVal at hq
  split at hq
  · rcases List.mem_map.mp hq with ⟨q0, hq0, hfq⟩
    by_cases h0 : q0.1 = c
    · rw [if_pos h0] at hfq
      rw [← hfq]
    · rw [if_neg h0] at hfq
      rw [← hfq] at hqc
      exact absurd hqc h0
  · next hnone =>
    rcases List.mem_append.mp hq with h1 | h1
    · have hno : r.lookup c = none := Option.not_isSome_iff_eq_none.mp hnone
      exact absurd hqc (lookup_none_not_mem r c hno q h1)
    · simp only [List.mem_singleton] at h1
      rw [h1]

theorem uniformAt_setVal_ne (r : Row) (c : String) (v : Value) (c' : String)
    (w : Value) (h : c ≠ c') (hu : uniformAt r c v) :
    uniformAt (setVal r c' w) c v := by
  intro q hq hqc
  unfold setVal at hq
  split at hq
  · rcases List.mem_map.mp hq with ⟨q0, hq0, hfq⟩
    by_cases h0 : q0.1 = c'
    · rw [if_pos h0] at hfq
      rw [← hfq] at hqc
      exact absurd hqc.symm (by simpa using h)
    · rw [if_neg h0] at hfq
      rw [← hfq] at hqc ⊢
      exact hu q0 hq0 hqc
  · rcases List.mem_append.mp hq with h1 | h1
    · exact hu q h1 hqc
    · simp only [List.mem_singleton] at h1
      rw [h1] at hqc
      exact absurd hqc.symm (by simpa using h)

theorem setVal_eq_self_of_uniform (r : Row) (c : String) (v : Value)
    (hu : uniformAt r c v) (hs : (r.lookup c).isSome = true) :
    setVal r c v = r := by
  unfold setVal
  rw [if_pos hs]
  have heach : ∀ q ∈ r, (if q.1 = c then (c, v) else q) = q := by
    intro q hq
    obtain ⟨k, w⟩ := q
    by_cases h0 : k = c
    · rw [if_pos h0]
      have hw := hu (k, w) hq h0
      simp only at hw
      rw [← h0, hw]
    · rw [if_neg h0]
  calc r.map (fun q => if q.1 = c then (c, v) else q)
      = r.map (fun q => q) := List.map_congr_left heach
    _ = r := List.map_id' r

/-! ### Membership shape of mapped tables -/

theorem mem_mapRows (f : Row → Row) (tbl : Table) (p : Nat × Row) :
    p ∈ mapRows f tbl ↔ ∃ q ∈ tbl, p = (q.1, f q.2) := by
  unfold mapRows mapRowsIdx
  rw [List.mem_map]
  constructor
  · rintro ⟨q, hq, hfq⟩
    exact ⟨q, hq, hfq.symm⟩
  · rintro ⟨q, hq, hfq⟩
    exact ⟨q, hq, hfq.symm⟩

theorem not_failing_valid (tbl : Table) (field : String) (rule : Rule)
    (m : Bool) (i : Nat) (q : Nat × Row) (hq : q ∈ tbl) (hqi : q.1 = i)
    (hni : i ∉ failingIds tbl field rule m) :
    validCell rule m (getVal q.2 field) = true := by
  cases hv : validCell rule m (getVal q.2 field) with
  | true => rfl
  | false =>
    exact absurd ((mem_failingIds_iff tbl field rule m i).mpr ⟨q, hq, hqi, hv⟩) hni

theorem validCell_date_true (v : Value)
    (h : validCell date_rule true v = true) :
    ∃ s ym, v = some s ∧ parse_date s = some ym := by
  cases v with
  | none => cases h
  | some s =>
    have hdv : date_val s = true := h
    unfold date_val at hdv
    cases hp : parse_date s with
    | some ym => exact ⟨s, ym, rfl, hp⟩
    | none => rw [hp] at hdv; cases hdv

theorem date_yr_mo_row_eq_self (r : Row) (s : String) (ym : Nat × Nat)
    (hd : getVal r "date" = some s) (hp : parse_date s = some ym)
    (hy : uniformAt r "year" (some (toString ym.1)))
    (hys : (r.lookup "year").isSome = true)
    (hm : uniformAt r "month" (some (toString ym.2)))
    (hms : (r.lookup "month").isSome = true) :
    date_yr_mo_row "date" r = r := by
  unfold date_yr_mo_row
  rw [hd]
  show (match parse_date s with
        | some ym =>
          setVal (setVal r "year" (some (toString ym.1))) "month"
            (some (toString ym.2))
        | none => setVal (setVal r "year" none) "month" none) = r
  rw [hp]
  show setVal (setVal r "year" (some (toString ym.1))) "month"
      (some (toString ym.2)) = r
  rw [setVal_eq_self_of_uniform r "year" _ hy hys]
  exact setVal_eq_self_of_uniform r "month" _ hm hms

/-! ### Facts about the rows surviving the hard filter -/

theorem hard_filtered_row_facts (df : Table) (p : Nat × Row)
    (hp : p ∈ (process_hard_rejects df).1) :
    validCell id_rule true (getVal p.2 "id") = true
    ∧ validCell case_number_rule true (getVal p.2 "case_number") = true
    ∧ ∃ s ym, getVal p.2 "date" = some s ∧ parse_date s = some ym
        ∧ (["0000-00-00"] : List String).contains s = false
        ∧ date_yr_mo_row "date" p.2 = p.2 := by
  rw [hard_table_char, List.mem_filter] at hp
  obtain ⟨hpd, hpu⟩ := hp
  have hpnu : p.1 ∉ unionRejects (process_hard_rejects df).2 := by
    intro hmem
    rw [(contains_iff_mem_nat _ _).mpr hmem] at hpu
    cases hpu
  have hnid : p.1 ∉ failingIds df "id" id_rule true := by
    intro hmem
    apply hpnu
    rw [mem_unionRejects, hard_record_char]
    exact ⟨_, List.mem_cons_self _ _, hmem⟩
  have hncn : p.1 ∉ failingIds df "case_number" case_number_rule true := by
    intro hmem
    apply hpnu
    rw [mem_unionRejects, hard_record_char]
    exact ⟨("case_number", failingIds df "case_number" case_number_rule true),
      by simp, hmem⟩
  have hndt : p.1
      ∉ failingIds (normalizeNulls "date" ["0000-00-00"] df) "date" date_rule true := by
    intro hmem
    apply hpnu
    rw [mem_unionRejects, hard_record_char]
    exact ⟨("date",
      failingIds (normalizeNulls "date" ["0000-00-00"] df) "date" date_rule true),
      by simp, hmem⟩
  rw [date_proc_eq] at hpd
  unfold date_yr_mo at hpd
  rw [mem_mapRows] at hpd
  obtain ⟨q, hq, hpq⟩ := hpd
  have hqnorm := hq
  rw [show normalizeNulls "date" ["0000-00-00"] df
      = mapRows (normalize_row "date" ["0000-00-00"]) df from rfl,
    mem_mapRows] at hqnorm
  obtain ⟨r, hr, hqr⟩ := hqnorm
  have hq1 : q.1 = p.1 := by rw [hpq]
  have hr1 : r.1 = p.1 := by rw [hpq, hqr]
  have hdv : validCell date_rule true (getVal q.2 "date") = true :=
    not_failing_valid _ "date" date_rule true p.1 q hq hq1 hndt
  obtain ⟨s, ym, hqs, hym⟩ := validCell_date_true _ hdv
  have hps : p.2
      = setVal (setVal q.2 "year" (some (toString ym.1))) "month"
          (some (toString ym.2)) := by
    rw [hpq]
    show date_yr_mo_row "date" q.2 = _
    unfold date_yr_mo_row
    rw [hqs]
    show (match parse_date s with
          | some ym =>
            setVal (setVal q.2 "year" (some (toString ym.1))) "month"
              (some (toString ym.2))
          | none => setVal (setVal q.2 "year" none) "month" none) = _
    rw [hym]
  have hgid : getVal p.2 "id" = getVal r.2 "id" := by
    rw [hps, getVal_setVal_ne _ _ _ _ (by decide), getVal_setVal_ne _ _ _ _ (by decide),
      show q.2 = normalize_row "date" ["0000-00-00"] r.2 from by rw [hqr]]
    exact getVal_normalize_row_ne "date" _ r.2 "id" (by decide)
  have hgcn : getVal p.2 "case_number" = getVal r.2 "case_number" := by
    rw [hps, getVal_setVal_ne _ _ _ _ (by decide), getVal_setVal_ne _ _ _ _ (by decide),
      show q.2 = normalize_row "date" ["0000-00-00"] r.2 from by rw [hqr]]
    exact getVal_normalize_row_ne "date" _ r.2 "case_number" (by decide)
  refine ⟨?_, ?_, s, ym, ?_, hym, ?_, ?_⟩
  · rw [hgid]
    exact not_failing_valid df "id" id_rule true p.1 r hr hr1 hnid
  · rw [hgcn]
    exact not_failing_valid df "case_number" case_number_rule true p.1 r hr hr1 hncn
  · rw [hps, getVal_setVal_ne _ _ _ _ (by decide), getVal_setVal_ne _ _ _ _ (by decide)]
    exact hqs
  · cases hc : (["0000-00-00"] : List String).contains s with
    | false => rfl
    | true =>
      exfalso
      have hs : s ∈ (["0000-00-00"] : List String) := List.elem_iff.mp hc
      simp only [List.mem_singleton] at hs
      rw [hs] at hym
      cases hym
  · apply date_yr_mo_row_eq_self p.2 s ym ?_ hym
    · rw [hps]
      apply uniformAt_setVal_ne _ _ _ _ _ (by decide)
      exact uniformAt_setVal_self _ _ _
    · rw [hps, lookup_setVal_ne _ _ _ _ (by decide), lookup_setVal_self]
      rfl
    · rw [hps]
      exact uniformAt_setVal_self _ _ _
    · rw [hps, lookup_setVal_self]
      rfl
    · rw [hps, getVal_setVal_ne _ _ _ _ (by decide), getVal_setVal_ne _ _ _ _ (by decide)]
      exact hqs

/-- C7: the hard-reject phase is idempotent — run on its own output it
removes no rows, and all three per-field reject sets are empty. -/
theorem C7_hard_phase_idempotent (df : Table) :
    process_hard_rejects ((process_hard_rejects df).1)
      = ((process_hard_rejects df).1,
         [("id", []), ("case_number", []), ("date", [])]) := by
  have hA : failingIds (process_hard_rejects df).1 "id" id_rule true = [] := by
    unfold failingIds
    rw [List.filter_eq_nil_iff.mpr ?_, List.map_nil]
    intro p hp
    obtain ⟨h1, _, _⟩ := hard_filtered_row_facts df p hp
    rw [h1]
    simp
  have hB : failingIds (process_hard_rejects df).1 "case_number" case_number_rule true
      = [] := by
    unfold failingIds
    rw [List.filter_eq_nil_iff.mpr ?_, List.map_nil]
    intro p hp
    obtain ⟨_, h2, _⟩ := hard_filtered_row_facts df p hp
    rw [h2]
    simp
  have hnormT : normalizeNulls "date" ["0000-00-00"] (process_hard_rejects df).1
      = (process_hard_rejects df).1 := by
    unfold normalizeNulls
    apply mapRows_eq_self
    intro p hp
    obtain ⟨_, _, s, ym, hd, hpd, hsent, _⟩ := hard_filtered_row_facts df p hp
    unfold normalize_row
    rw [hd]
    show (if (["0000-00-00"] : List String).contains s = true then
        setVal p.2 "date" none else p.2) = p.2
    rw [if_neg (by rw [hsent]; exact Bool.false_ne_true)]
  have hC : failingIds
      (normalizeNulls "date" ["0000-00-00"] (process_hard_rejects df).1)
      "date" date_rule true = [] := by
    rw [hnormT]
    unfold failingIds
    rw [List.filter_eq_nil_iff.mpr ?_, List.map_nil]
    intro p hp
    obtain ⟨_, _, s, ym, hd, hpd, _, _⟩ := hard_filtered_row_facts df p hp
    have : validCell date_rule true (getVal p.2 "date") = true := by
      rw [hd]
      show date_val s = true
      unfold date_val
      rw [hpd]
      rfl
    rw [this]
    simp
  have hdproc : date_proc (process_hard_rejects df).1 = (process_hard_rejects df).1 := by
    rw [date_proc_eq, hnormT]
    unfold date_yr_mo
    apply mapRows_eq_self
    intro p hp
    obtain ⟨_, _, s, ym, hd, hpd, _, hrow⟩ := hard_filtered_row_facts df p hp
    exact hrow
  have hrec : (process_hard_rejects (process_hard_rejects df).1).2
      = [("id", []), ("case_number", []), ("date", [])] := by
    rw [hard_record_char, hA, hB, hC]
  have htab : (process_hard_rejects (process_hard_rejects df).1).1
      = (process_hard_rejects df).1 := by
    rw [hard_table_char, hdproc, hrec]
    have hun : unionRejects
        [("id", ([] : List Nat)), ("case_number", []), ("date", [])] = [] := rfl
    rw [hun]
    exact List.filter_true _
  exact Prod.ext_iff.mpr ⟨htab, hrec⟩

/-! ### Soft-phase concrete claims -/

set_option maxRecDepth 10000

/-- Concrete table for C4: three zip-code inputs of lengths 3, 4 and 5. -/
def c4df : Table :=
  [(0, [("zip_codes", some "606")]),
   (1, [("zip_codes", some "6060")]),
   (2, [("zip_codes", some "60601")])]

/-- C4: zip processing rejects `"606"` (recorded, nulled, original kept in
the shadow column), left-pads `"6060"` to `"06060"`, and leaves `"60601"`
unchanged. -/
theorem C4_zip_normalization_examples :
    zip_codes_match "606" = false
    ∧ zip_codes_match "6060" = true
    ∧ zip_codes_match "60601" = true
    ∧ rejectsOf (process_soft_rejects c4df).2 "zip_codes" = [0]
    ∧ cellVal (process_soft_rejects c4df).1 0 "zip_codes" = none
    ∧ cellVal (process_soft_rejects c4df).1 0 "zip_codes_orig" = some "606"
    ∧ cellVal (process_soft_rejects c4df).1 1 "zip_codes" = some "06060"
    ∧ cellVal (process_soft_rejects c4df).1 2 "zip_codes" = some "60601" := by
  refine ⟨rfl, rfl, rfl, rfl, rfl, rfl, rfl, rfl⟩

/-- Concrete table for C6: one row with a parenthesized lat/lon pair. -/
def c6df : Table :=
  [(0, [("location", some "(41.88, -87.62)")])]

/-- C6: for a row whose location is `"(41.88, -87.62)"`, the soft phase
produces latitude `"41.88"` and longitude `"-87.62"`, and the source
`location` column is dropped from the clean table. -/
theorem C6_location_decomposition :
    cellVal (process_soft_rejects c6df).1 0 "latitude" = some "41.88"
    ∧ cellVal (process_soft_rejects c6df).1 0 "longitude" = some "-87.62"
    ∧ hasCol (process_soft_rejects c6df).1 0 "location" = false := by
  refine ⟨rfl, rfl, rfl⟩

/-! ### C10: the cleaned zip column only holds 5-character values -/

theorem zip_to_five_length (v : Value) (s : String) (h : zip_to_five v = some s) :
    s.length = 5 := by
  cases v with
  | none => cases h
  | some t =>
    have h2 : (if (t.length == 4) = true then some ("0" ++ t)
        else if (t.length == 5) = true then some t else none) = some s := h
    split at h2
    · next h4 =>
      injection h2 with h'
      have h4' : t.length = 4 := by simpa using h4
      rw [← h']
      have h0 : ("0" : String).length = 1 := rfl
      rw [show ("0" ++ t : String).length = 1 + t.length from by
        rw [String.length_append, h0]]
      rw [h4']
    · split at h2
      · next h5 =>
        injection h2 with h'
        rw [← h']
        simpa using h5
      · cases h2

/-- The first twelve optional fields (everything before `zip_codes`). -/
def soft_first12 : List (String × Rule) :=
  [("block", block_rule),
   ("iucr", iucr_rule),
   ("primary_type", primary_type_rule),
   ("description", description_rule),
   ("location_description", location_description_rule),
   ("arrest", arrest_rule),
   ("domestic", domestic_rule),
   ("beat", beat_rule),
   ("district", district_rule),
   ("ward", ward_rule),
   ("community_area", community_area_rule),
   ("location", location_rule)]

theorem runFields_append_last (tbl : Table) (flds : List (String × Rule))
    (g : String × Rule) (m : Bool) :
    (runFields tbl (flds ++ [g]) m).1
      = (process_field (runFields tbl flds m).1 g.1 g.2 m).1 := by
  induction flds generalizing tbl with
  | nil => rfl
  | cons fr rest ih =>
    simp only [List.cons_append, runFields]
    exact ih _

theorem process_field_zip_length (T : Table) (p : Nat × Row)
    (hp : p ∈ (process_field T "zip_codes" zip_codes_rule false).1)
    (s : String) (hs : getVal p.2 "zip_codes" = some s) : s.length = 5 := by
  have hred : (process_field T "zip_codes" zip_codes_rule false).1
      = mapRows
          (fun r => setVal r "zip_codes" (zip_to_five (getVal r "zip_codes")))
          (applyShadow "zip_codes"
            (failingIds (normalizeNulls "zip_codes" [] T) "zip_codes"
              zip_codes_rule false)
            (normalizeNulls "zip_codes" [] T)) := rfl
  rw [hred, mem_mapRows] at hp
  obtain ⟨q, hq, hpq⟩ := hp
  rw [hpq] at hs
  have hs2 : getVal
      (setVal q.2 "zip_codes" (zip_to_five (getVal q.2 "zip_codes")))
      "zip_codes" = some s := hs
  rw [getVal_setVal_self] at hs2
  exact zip_to_five_length _ s hs2

/-- Concrete table for C10: a six-digit zip that the unanchored pattern
accepts. -/
def c10df : Table := [(0, [("zip_codes", some "606010")])]

/-- C10: every non-null value in the cleaned `zip_codes` column has exactly
5 characters; in particular `"606010"` passes the unanchored validation (no
soft reject recorded, no shadow value stored) yet the post-processing step
replaces it with null. -/
theorem C10_clean_zip_always_five_chars (df : Table) :
    (∀ p ∈ (process_soft_rejects df).1, ∀ s,
        getVal p.2 "zip_codes" = some s → s.length = 5)
    ∧ zip_codes_match "606010" = true
    ∧ rejectsOf (process_soft_rejects c10df).2 "zip_codes" = []
    ∧ cellVal (process_soft_rejects c10df).1 0 "zip_codes_orig" = none
    ∧ cellVal (process_soft_rejects c10df).1 0 "zip_codes" = none := by
  refine ⟨?_, rfl, rfl, rfl, rfl⟩
  intro p hp s hs
  have h1 : (process_soft_rejects df).1
      = (process_field (runFields df soft_first12 false).1 "zip_codes"
          zip_codes_rule false).1 := by
    show (runFields df nullable_fields false).1 = _
    rw [show nullable_fields = soft_first12 ++ [("zip_codes", zip_codes_rule)] from rfl]
    exact runFields_append_last df soft_first12 _ false
  rw [h1] at hp
  exact process_field_zip_length _ p hp s hs

theorem C10_clean_zip_always_five_chars_witness : ("06060" : String).length = 5 :=
  (C10_clean_zip_always_five_chars [(0, [("zip_codes", some "6060")])]).1
    (0, [("zip_codes", some "06060"), ("house_num", none), ("street_addr", none),
         ("primary_type", none), ("description", none),
         ("location_description", none), ("latitude", none), ("longitude", none)])
    (by decide) "06060" (by decide)

/-! ### C9: the hard-reject phase works on a copy, not in place -/

/-- Concrete table for C9: row 1 fails the id rule. -/
def c9df : Table :=
  [(0, [("id", some "7"), ("case_number", some "AB1"), ("date", some "2019-05-01")]),
   (1, [("id", some "x"), ("case_number", some "AB2"), ("date", some "2019-05-01")])]

/-- C9 counterexample: `process_hard_rejects` does not mutate the loaded
table in place — it filters a copy (`df_filt = df.copy()`).  On a concrete
input its output differs from its input, while the loaded table keeps the
hard-rejected row with its original values, which is exactly what the
source's reject-report assembly (called with the original `df`) reads. -/
theorem C9_counterexample_hard_phase_copies :
    (process_hard_rejects c9df).1 ≠ c9df
    ∧ hasRow c9df 1 = true
    ∧ cellVal c9df 1 "id" = some "x"
    ∧ cellVal (hard_reject_report c9df (process_hard_rejects c9df).2 "f0.csv") 1 "id"
        = some "x" := by
  refine ⟨?_, rfl, rfl, rfl⟩
  intro h
  have h1 : hasRow (process_hard_rejects c9df).1 1 = true := by rw [h]; rfl
  have h2 : hasRow (process_hard_rejects c9df).1 1 = false := rfl
  rw [h1] at h2
  cases h2

/-- C9 amended: the hard-reject phase leaves the original loaded table
unchanged and returns a filtered copy; every hard-rejected row is still
available to the report assembly from the original table, with its
original values. -/
theorem C9_hard_phase_preserves_original (df : Table) (fn : String) (i : Nat)
    (p : Nat × Row) (hp : rowAtP df i = some p)
    (hu : i ∈ unionRejects (process_hard_rejects df).2) :
    ∃ q, rowAtP (hard_reject_report df (process_hard_rejects df).2 fn) i = some q
      ∧ ∀ c, c ≠ "cols" → c ≠ "file_name" → getVal q.2 c = getVal p.2 c := by
  have hc : (unionRejects (process_hard_rejects df).2).contains i = true :=
    (contains_iff_mem_nat _ i).mpr hu
  unfold hard_reject_report
  rw [rowAtP_mapRowsIdx,
    rowAtP_filter_idx
      (fun j => (unionRejects (process_hard_rejects df).2).contains j) df i]
  rw [hc]
  simp only [if_pos, hp, Option.map_some]
  refine ⟨_, rfl, ?_⟩
  intro c hc1 hc2
  show getVal
      (setVal
        (setVal p.2 "cols"
          (some (String.intercalate ", " (rejectCols (process_hard_rejects df).2 p.1))))
        "file_name" (some fn)) c
    = getVal p.2 c
  rw [getVal_setVal_ne _ _ _ _ hc2, getVal_setVal_ne _ _ _ _ hc1]

theorem C9_hard_phase_preserves_original_witness :
    ∃ q, rowAtP (hard_reject_report c9df (process_hard_rejects c9df).2 "f0.csv") 1
        = some q
      ∧ ∀ c, c ≠ "cols" → c ≠ "file_name"
          → getVal q.2 c
            = getVal [("id", some "x"), ("case_number", some "AB2"),
                      ("date", some "2019-05-01")] c :=
  C9_hard_phase_preserves_original c9df "f0.csv" 1
    (1, [("id", some "x"), ("case_number", some "AB2"), ("date", some "2019-05-01")])
    (by decide) (by decide)

/-! ### C3: the soft-reject shadow invariant -/

theorem lookup_eq_none_of_keys (r : Row) (c : String)
    (h : ∀ q ∈ r, q.1 ≠ c) : r.lookup c = none := by
  induction r with
  | nil => rfl
  | cons q t ih =>
    have hq : q.1 ≠ c := h q (List.mem_cons_self q t)
    have hb : (c == q.1) = false := by
      simp only [beq_eq_false_iff_ne, ne_eq]
      exact fun hc => hq hc.symm
    unfold List.lookup
    rw [hb]
    exact ih (fun q' hq' => h q' (List.mem_cons_of_mem q hq'))

theorem getVal_eq_none_of_keys (r : Row) (c : String)
    (h : ∀ q ∈ r, q.1 ≠ c) : getVal r c = none := by
  unfold getVal
  rw [lookup_eq_none_of_keys r c h]

theorem cellVal_applyDrop_self (field : String) (t : Table) (i : Nat) :
    cellVal (applyDrop field true t) i field = none := by
  unfold applyDrop
  rw [if_pos rfl]
  rw [cellVal_mapRows]
  cases rowAtP t i with
  | some p => exact getVal_dropVal_self p.2 field
  | none => rfl

theorem cellVal_applyPost_none (field : String)
    (pp : List (Option String × (Value → Value))) (t : Table) (i : Nat)
    (hpp : ∀ st ∈ pp, st.1 = (none : Option String) ∧ st.2 none = none)
    (h0 : cellVal t i field = none) :
    cellVal (applyPost field pp t) i field = none := by
  induction pp generalizing t with
  | nil => exact h0
  | cons st rest ih =>
    obtain ⟨hst1, hst2⟩ := hpp st (List.mem_cons_self st rest)
    have hrest : ∀ st ∈ rest, st.1 = (none : Option String) ∧ st.2 none = none :=
      fun s hs => hpp s (List.mem_cons_of_mem st hs)
    unfold applyPost
    rw [List.foldl_cons]
    have hstep : cellVal
        (mapRows (fun r => setVal r (st.1.getD field) (st.2 (getVal r field))) t)
        i field = none := by
      rw [cellVal_mapRows]
      cases hr : rowAtP t i with
      | some p =>
        rw [hst1]
        show getVal (setVal p.2 field (st.2 (getVal p.2 field))) field = none
        rw [getVal_setVal_self]
        have : getVal p.2 field = none := by
          unfold cellVal at h0
          rw [hr] at h0
          exact h0
        rw [this, hst2]
      | none => rfl
    have := ih (mapRows (fun r => setVal r (st.1.getD field) (st.2 (getVal r field))) t)
      hrest hstep
    unfold applyPost at this
    exact this

theorem rejectsOf_cons_self (G : String) (l : List Nat) (rec : RejectRecord) :
    rejectsOf ((G, l) :: rec) G = l := by
  unfold rejectsOf
  have hl : List.lookup G ((G, l) :: rec) = some l := by
    show (match G == G with
          | true => some l
          | false => List.lookup G rec) = some l
    rw [show (G == G) = true from by simp]
  rw [hl]

theorem rejectsOf_cons_ne (F G : String) (l : List Nat) (rec : RejectRecord)
    (h : F ≠ G) : rejectsOf ((G, l) :: rec) F = rejectsOf rec F := by
  unfold rejectsOf
  have hl : List.lookup F ((G, l) :: rec) = List.lookup F rec := by
    show (match F == G with
          | true => some l
          | false => List.lookup F rec) = List.lookup F rec
    rw [show (F == G) = false from by
      simp only [beq_eq_false_iff_ne, ne_eq]; exact h]
  rw [hl]

/-- The per-field conditions under which the soft phase maintains the
shadow invariant: distinct field names, fields and shadows in the protected
column set, overwrite-only null-preserving transforms, generators that
leave protected columns alone, and no field named like a shadow column. -/
structure SoftOk (prot : List String) (flds : List (String × Rule)) : Prop where
  nodup : (flds.map Prod.fst).Nodup
  mem_prot : ∀ fr ∈ flds, fr.1 ∈ prot ∧ (fr.1 ++ "_orig") ∈ prot
  posts : ∀ fr ∈ flds, ∀ st ∈ fr.2.post_process,
    st.1 = (none : Option String) ∧ st.2 none = none
  gens : ∀ fr ∈ flds, ∀ g ∈ fr.2.generated_cols,
    genFstPres g ∧ ∀ c ∈ prot, genCellPres g c
  no_shadow_name : ∀ fr ∈ flds, ∀ F ∈ prot, fr.1 ≠ F ++ "_orig"
  shadow_inj : ∀ fr ∈ flds, ∀ fr' ∈ flds,
    fr.1 ++ "_orig" = fr'.1 ++ "_orig" → fr.1 = fr'.1

theorem SoftOk.rest (prot : List String) (fr : String × Rule)
    (flds : List (String × Rule)) (h : SoftOk prot (fr :: flds)) :
    SoftOk prot flds := by
  refine ⟨?_, ?_, ?_, ?_, ?_, ?_⟩
  · have := h.nodup
    rw [List.map_cons, List.nodup_cons] at this
    exact this.2
  · exact fun g hg => h.mem_prot g (List.mem_cons_of_mem fr hg)
  · exact fun g hg => h.posts g (List.mem_cons_of_mem fr hg)
  · exact fun g hg => h.gens g (List.mem_cons_of_mem fr hg)
  · exact fun g hg => h.no_shadow_name g (List.mem_cons_of_mem fr hg)
  · exact fun g hg g' hg' =>
      h.shadow_inj g (List.mem_cons_of_mem fr hg) g' (List.mem_cons_of_mem fr hg')

theorem cellVal_runFields_pres (flds : List (String × Rule)) (tbl : Table)
    (i : Nat) (c : String)
    (hc : ∀ fr ∈ flds, c ≠ fr.1 ∧ c ≠ fr.1 ++ "_orig"
      ∧ (∀ st ∈ fr.2.post_process, st.1 = (none : Option String))
      ∧ (∀ g ∈ fr.2.generated_cols, genCellPres g c)) :
    cellVal (runFields tbl flds false).1 i c = cellVal tbl i c := by
  induction flds generalizing tbl with
  | nil => rfl
  | cons fr rest ih =>
    obtain ⟨h1, h2, h3, h4⟩ := hc fr (List.mem_cons_self fr rest)
    show cellVal (runFields (process_field tbl fr.1 fr.2 false).1 rest false).1 i c
      = cellVal tbl i c
    rw [ih _ (fun g hg => hc g (List.mem_cons_of_mem fr hg))]
    exact cellVal_process_field_ne tbl fr.1 fr.2 false i c h1 h2 h3 h4

theorem process_field_soft_shadow (tbl : Table) (G : String) (R : Rule) (i : Nat)
    (hnd : (tbl.map Prod.fst).Nodup)
    (hGo : G ≠ G ++ "_orig")
    (hsh : cellVal tbl i (G ++ "_orig") = none)
    (hpp : ∀ st ∈ R.post_process, st.1 = (none : Option String) ∧ st.2 none = none)
    (hg : ∀ g ∈ R.generated_cols, genCellPres g G ∧ genCellPres g (G ++ "_orig")) :
    (cellVal (process_field tbl G R false).1 i (G ++ "_orig") ≠ none
      ↔ i ∈ (process_field tbl G R false).2)
    ∧ (i ∈ (process_field tbl G R false).2
      → cellVal (process_field tbl G R false).1 i G = none) := by
  have hOG : G ++ "_orig" ≠ G := fun h => hGo h.symm
  have hpf1 : (process_field tbl G R false).1
      = applyDrop G R.drop_field
          (applyGens G R.generated_cols
            (applyPost G R.post_process
              (applyShadow G
                (failingIds (normalizeNulls G R.other_nulls tbl) G R false)
                (normalizeNulls G R.other_nulls tbl)))) := rfl
  have hpf2 : (process_field tbl G R false).2
      = failingIds (normalizeNulls G R.other_nulls tbl) G R false := rfl
  have hnd1 : ((normalizeNulls G R.other_nulls tbl).map Prod.fst).Nodup := by
    rw [map_fst_normalizeNulls]
    exact hnd
  have hsh_eq : cellVal (process_field tbl G R false).1 i (G ++ "_orig")
      = cellVal
          (applyShadow G
            (failingIds (normalizeNulls G R.other_nulls tbl) G R false)
            (normalizeNulls G R.other_nulls tbl)) i (G ++ "_orig") := by
    rw [hpf1, cellVal_applyDrop_ne _ _ _ _ _ hOG,
      cellVal_applyGens_pres _ _ _ _ _ (fun g hg2 => (hg g hg2).2),
      cellVal_applyPost_ne _ _ _ _ _ hOG (fun st hst => (hpp st hst).1)]
  cases hr : rowAtP (normalizeNulls G R.other_nulls tbl) i with
  | none =>
    have hnotf : i ∉ failingIds (normalizeNulls G R.other_nulls tbl) G R false := by
      intro hmem
      rcases (mem_failingIds_iff _ G R false i).mp hmem with ⟨p, hp1, hp2, _⟩
      have hs : (rowAtP (normalizeNulls G R.other_nulls tbl) i).isSome = true :=
        (rowAtP_isSome_iff _ i).mpr (hp2 ▸ List.mem_map_of_mem Prod.fst hp1)
      rw [hr] at hs
      cases hs
    have hshv : cellVal
        (applyShadow G (failingIds (normalizeNulls G R.other_nulls tbl) G R false)
          (normalizeNulls G R.other_nulls tbl)) i (G ++ "_orig") = none := by
      unfold applyShadow
      rw [cellVal_mapRowsIdx, hr]
    refine ⟨?_, ?_⟩
    · rw [hsh_eq, hshv, hpf2]
      constructor
      · intro hne
        exact absurd rfl hne
      · intro hmem
        exact absurd hmem hnotf
    · intro hmem
      rw [hpf2] at hmem
      exact absurd hmem hnotf
  | some p =>
    obtain ⟨hpm, hpi⟩ := rowAtP_eq_some _ i p hr
    have hshv2 : cellVal
        (applyShadow G (failingIds (normalizeNulls G R.other_nulls tbl) G R false)
          (normalizeNulls G R.other_nulls tbl)) i (G ++ "_orig")
        = getVal
            (if (failingIds (normalizeNulls G R.other_nulls tbl) G R false).contains p.1
                = true then
              setVal (setVal p.2 (G ++ "_orig") (getVal p.2 G)) G none
            else p.2) (G ++ "_orig") := by
      unfold applyShadow
      rw [cellVal_mapRowsIdx, hr]
    have hshvG : cellVal
        (applyShadow G (failingIds (normalizeNulls G R.other_nulls tbl) G R false)
          (normalizeNulls G R.other_nulls tbl)) i G
        = getVal
            (if (failingIds (normalizeNulls G R.other_nulls tbl) G R false).contains p.1
                = true then
              setVal (setVal p.2 (G ++ "_orig") (getVal p.2 G)) G none
            else p.2) G := by
      unfold applyShadow
      rw [cellVal_mapRowsIdx, hr]
    by_cases hf : i ∈ failingIds (normalizeNulls G R.other_nulls tbl) G R false
    · have hfc : (failingIds (normalizeNulls G R.other_nulls tbl) G R false).contains p.1
          = true := by
        rw [hpi]
        exact (contains_iff_mem_nat _ i).mpr hf
      have hbad : validCell R false (getVal p.2 G) = false :=
        (mem_failingIds_nodup _ G R false i p hnd1 hr).mp hf
      cases hv : getVal p.2 G with
      | none =>
        rw [hv] at hbad
        exact absurd hbad (by simp [validCell])
      | some s =>
        have hshadow : cellVal
            (applyShadow G (failingIds (normalizeNulls G R.other_nulls tbl) G R false)
              (normalizeNulls G R.other_nulls tbl)) i (G ++ "_orig") = some s := by
          rw [hshv2, if_pos hfc, getVal_setVal_ne _ _ _ _ hOG, getVal_setVal_self, hv]
        have ht2G : cellVal
            (applyShadow G (failingIds (normalizeNulls G R.other_nulls tbl) G R false)
              (normalizeNulls G R.other_nulls tbl)) i G = none := by
          rw [hshvG, if_pos hfc, getVal_setVal_self]
        have hclean : cellVal (process_field tbl G R false).1 i G = none := by
          rw [hpf1]
          cases hdrop : R.drop_field with
          | true =>
            exact cellVal_applyDrop_self G _ i
          | false =>
            show cellVal
                (applyGens G R.generated_cols
                  (applyPost G R.post_process
                    (applyShadow G
                      (failingIds (normalizeNulls G R.other_nulls tbl) G R false)
                      (normalizeNulls G R.other_nulls tbl)))) i G = none
            rw [cellVal_applyGens_pres _ _ _ _ _ (fun g hg2 => (hg g hg2).1)]
            exact cellVal_applyPost_none G R.post_process _ i hpp ht2G
        refine ⟨?_, fun _ => hclean⟩
        rw [hsh_eq, hshadow, hpf2]
        constructor
        · intro _
          exact hf
        · intro _
          simp
    · have hfc : (failingIds (normalizeNulls G R.other_nulls tbl) G R false).contains p.1
          = false := by
        rw [hpi]
        cases hc : (failingIds (normalizeNulls G R.other_nulls tbl) G R false).contains i with
        | false => rfl
        | true => exact absurd ((contains_iff_mem_nat _ i).mp hc) hf
      have hshadow : cellVal
          (applyShadow G (failingIds (normalizeNulls G R.other_nulls tbl) G R false)
            (normalizeNulls G R.other_nulls tbl)) i (G ++ "_orig") = none := by
        rw [hshv2, if_neg (by rw [hfc]; exact Bool.false_ne_true)]
        have h1 : cellVal (normalizeNulls G R.other_nulls tbl) i (G ++ "_orig") = none := by
          rw [cellVal_normalizeNulls_ne _ _ _ _ _ hOG]
          exact hsh
        unfold cellVal at h1
        rw [hr] at h1
        exact h1
      refine ⟨?_, ?_⟩
      · rw [hsh_eq, hshadow, hpf2]
        constructor
        · intro hne
          exact absurd rfl hne
        · intro hmem
          exact absurd hmem hf
      · intro hmem
        rw [hpf2] at hmem
        exact absurd hmem hf

theorem soft_runFields_invariant (flds : List (String × Rule)) :
    ∀ (prot : List String) (tbl : Table),
      (tbl.map Prod.fst).Nodup →
      SoftOk prot flds →
      (∀ fr ∈ flds, ∀ i, cellVal tbl i (fr.1 ++ "_orig") = none) →
      ∀ F ∈ flds.map Prod.fst, ∀ i,
        (cellVal (runFields tbl flds false).1 i (F ++ "_orig") ≠ none
          ↔ i ∈ rejectsOf (runFields tbl flds false).2 F)
        ∧ (i ∈ rejectsOf (runFields tbl flds false).2 F
          → cellVal (runFields tbl flds false).1 i F = none) := by
  induction flds with
  | nil =>
    intro prot tbl _ _ _ F hF
    exact absurd hF (List.not_mem_nil F)
  | cons fr rest ih =>
    intro prot tbl hnd hok hsh F hF i
    obtain ⟨G, R⟩ := fr
    have hGmem : ((G, R) : String × Rule) ∈ (G, R) :: rest := List.mem_cons_self _ _
    have hGprot := hok.mem_prot (G, R) hGmem
    have hGo : G ≠ G ++ "_orig" := hok.no_shadow_name (G, R) hGmem G hGprot.1
    have hndcons := hok.nodup
    rw [List.map_cons, List.nodup_cons] at hndcons
    have hT1nd : (((process_field tbl G R false).1).map Prod.fst).Nodup := by
      rw [map_fst_process_field tbl G R false
        (fun g hg => (hok.gens (G, R) hGmem g hg).1)]
      exact hnd
    have hrest_ok : SoftOk prot rest := SoftOk.rest prot (G, R) rest hok
    have hrun1 : (runFields tbl ((G, R) :: rest) false).1
        = (runFields (process_field tbl G R false).1 rest false).1 := rfl
    have hrun2 : (runFields tbl ((G, R) :: rest) false).2
        = (G, (process_field tbl G R false).2)
            :: (runFields (process_field tbl G R false).1 rest false).2 := rfl
    rw [List.map_cons] at hF
    rcases List.mem_cons.mp hF with hFG | hFrest
    · subst hFG
      have hpresconds : ∀ fr2 ∈ rest, F ≠ fr2.1 ∧ F ≠ fr2.1 ++ "_orig"
          ∧ (∀ st ∈ fr2.2.post_process, st.1 = (none : Option String))
          ∧ (∀ g ∈ fr2.2.generated_cols, genCellPres g F) := by
        intro fr2 hfr2
        have hfr2' : fr2 ∈ ((F, R) : String × Rule) :: rest :=
          List.mem_cons_of_mem _ hfr2
        refine ⟨?_, ?_, ?_, ?_⟩
        · intro hEq
          apply hndcons.1
          rw [hEq]
          exact List.mem_map.mpr ⟨fr2, hfr2, rfl⟩
        · exact hok.no_shadow_name (F, R) hGmem fr2.1 (hok.mem_prot fr2 hfr2').1
        · exact fun st hst => (hok.posts fr2 hfr2' st hst).1
        · exact fun g hg => (hok.gens fr2 hfr2' g hg).2 F hGprot.1
      have hpresconds2 : ∀ fr2 ∈ rest, (F ++ "_orig") ≠ fr2.1
          ∧ (F ++ "_orig") ≠ fr2.1 ++ "_orig"
          ∧ (∀ st ∈ fr2.2.post_process, st.1 = (none : Option String))
          ∧ (∀ g ∈ fr2.2.generated_cols, genCellPres g (F ++ "_orig")) := by
        intro fr2 hfr2
        have hfr2' : fr2 ∈ ((F, R) : String × Rule) :: rest :=
          List.mem_cons_of_mem _ hfr2
        refine ⟨?_, ?_, ?_, ?_⟩
        · intro hEq
          exact (hok.no_shadow_name fr2 hfr2' F hGprot.1) hEq.symm
        · intro hEq
          have hFf : F = fr2.1 := hok.shadow_inj (F, R) hGmem fr2 hfr2' hEq
          apply hndcons.1
          rw [hFf]
          exact List.mem_map.mpr ⟨fr2, hfr2, rfl⟩
        · exact fun st hst => (hok.posts fr2 hfr2' st hst).1
        · exact fun g hg => (hok.gens fr2 hfr2' g hg).2 (F ++ "_orig") hGprot.2
      have hpresG : cellVal (runFields tbl ((F, R) :: rest) false).1 i F
          = cellVal (process_field tbl F R false).1 i F := by
        rw [hrun1]
        exact cellVal_runFields_pres rest _ i F hpresconds
      have hpresGo : cellVal (runFields tbl ((F, R) :: rest) false).1 i (F ++ "_orig")
          = cellVal (process_field tbl F R false).1 i (F ++ "_orig") := by
        rw [hrun1]
        exact cellVal_runFields_pres rest _ i (F ++ "_orig") hpresconds2
      have hrec : rejectsOf (runFields tbl ((F, R) :: rest) false).2 F
          = (process_field tbl F R false).2 := by
        rw [hrun2]
        exact rejectsOf_cons_self F _ _
      have hmain := process_field_soft_shadow tbl F R i hnd hGo (hsh (F, R) hGmem i)
        (hok.posts (F, R) hGmem)
        (fun g hg => ⟨(hok.gens (F, R) hGmem g hg).2 F hGprot.1,
                      (hok.gens (F, R) hGmem g hg).2 (F ++ "_orig") hGprot.2⟩)
      refine ⟨?_, ?_⟩
      · rw [hpresGo, hrec]
        exact hmain.1
      · rw [hrec, hpresG]
        exact hmain.2
    · have hFneG : F ≠ G := by
        intro hEq
        exact hndcons.1 (hEq ▸ hFrest)
      have hsh' : ∀ fr2 ∈ rest, ∀ j,
          cellVal (process_field tbl G R false).1 j (fr2.1 ++ "_orig") = none := by
        intro fr2 hfr2 j
        have hfr2' : fr2 ∈ ((G, R) : String × Rule) :: rest :=
          List.mem_cons_of_mem _ hfr2
        have hc1 : (fr2.1 ++ "_orig") ≠ G := by
          intro hEq
          exact (hok.no_shadow_name (G, R) hGmem fr2.1 (hok.mem_prot fr2 hfr2').1) hEq.symm
        have hc2 : (fr2.1 ++ "_orig") ≠ G ++ "_orig" := by
          intro hEq
          have hf2G : fr2.1 = G := hok.shadow_inj fr2 hfr2' (G, R) hGmem hEq
          apply hndcons.1
          rw [← hf2G]
          exact List.mem_map.mpr ⟨fr2, hfr2, rfl⟩
        have hc3 : ∀ st ∈ R.post_process, st.1 = (none : Option String) :=
          fun st hst => (hok.posts (G, R) hGmem st hst).1
        have hc4 : ∀ g ∈ R.generated_cols, genCellPres g (fr2.1 ++ "_orig") :=
          fun g hg => (hok.gens (G, R) hGmem g hg).2 (fr2.1 ++ "_orig")
            (hok.mem_prot fr2 hfr2').2
        rw [cellVal_process_field_ne tbl G R false j _ hc1 hc2 hc3 hc4]
        exact hsh fr2 hfr2' j
      have hrecne : rejectsOf (runFields tbl ((G, R) :: rest) false).2 F
          = rejectsOf (runFields (process_field tbl G R false).1 rest false).2 F := by
        rw [hrun2]
        exact rejectsOf_cons_ne F G _ _ hFneG
      have hthis := ih prot (process_field tbl G R false).1 hT1nd hrest_ok hsh' F hFrest i
      refine ⟨?_, ?_⟩
      · rw [hrun1, hrecne]
        exact hthis.1
      · rw [hrun1, hrecne]
        exact hthis.2

/-- The protected columns of the soft phase: every optional field and its
shadow column. -/
def soft_protected : List String :=
  ["block", "iucr", "primary_type", "description", "location_description",
   "arrest", "domestic", "beat", "district", "ward", "community_area",
   "location", "zip_codes",
   "block_orig", "iucr_orig", "primary_type_orig", "description_orig",
   "location_description_orig", "arrest_orig", "domestic_orig", "beat_orig",
   "district_orig", "ward_orig", "community_area_orig", "location_orig",
   "zip_codes_orig"]

theorem softOk_nullable : SoftOk soft_protected nullable_fields := by
  have hb1 : ∀ c ∈ soft_protected, c ≠ "house_num" ∧ c ≠ "street_addr" := by decide
  have hb2 : ∀ c ∈ soft_protected, c ≠ "latitude" ∧ c ≠ "longitude" := by decide
  refine ⟨?_, ?_, ?_, ?_, ?_, ?_⟩
  · decide
  · decide
  · intro fr hfr
    simp only [nullable_fields, List.mem_cons, List.not_mem_nil, or_false] at hfr
    rcases hfr with rfl | rfl | rfl | rfl | rfl | rfl | rfl | rfl | rfl | rfl | rfl | rfl | rfl
      <;> intro st hst
      <;> simp only [block_rule, iucr_rule, primary_type_rule, description_rule,
            location_description_rule, arrest_rule, domestic_rule, beat_rule,
            district_rule, ward_rule, community_area_rule, location_rule,
            zip_codes_rule, List.mem_singleton, List.not_mem_nil] at hst
    all_goals first
      | exact hst.elim
      | (rw [hst]; exact ⟨rfl, rfl⟩)
  · intro fr hfr
    simp only [nullable_fields, List.mem_cons, List.not_mem_nil, or_false] at hfr
    rcases hfr with rfl | rfl | rfl | rfl | rfl | rfl | rfl | rfl | rfl | rfl | rfl | rfl | rfl
      <;> intro g hg
      <;> simp only [block_rule, iucr_rule, primary_type_rule, description_rule,
            location_description_rule, arrest_rule, domestic_rule, beat_rule,
            district_rule, ward_rule, community_area_rule, location_rule,
            zip_codes_rule, List.mem_singleton, List.not_mem_nil] at hg
    all_goals first
      | exact hg.elim
      | (rw [hg]
         exact ⟨genFstPres_block_num_addr,
           fun c hc => genCellPres_block_num_addr c (hb1 c hc).1 (hb1 c hc).2⟩)
      | (rw [hg]
         exact ⟨genFstPres_location_lat_lon,
           fun c hc => genCellPres_location_lat_lon c (hb2 c hc).1 (hb2 c hc).2⟩)
  · decide
  · decide

/-- C3: after the soft-reject phase is run on the hard-filtered table (the
pipeline's actual soft-phase input), for every optional field F and row
index i, the shadow column `F_orig` holds a non-null value at i iff i is
recorded in the soft-reject record under F, and in that case the cleaned
column F is null at i.  The raw input table is the notebook's
(`df = df[keep_cols]`, unique load-time index); the hard phase adds only
the `year`/`month` columns, never a shadow column. -/
theorem C3_soft_shadow_invariant (df : Table)
    (hwf : ∀ p ∈ df, ∀ q ∈ p.2, q.1 ∈ keep_cols)
    (hnd : (df.map Prod.fst).Nodup) :
    ∀ F ∈ nullable_fields.map Prod.fst, ∀ i,
      (cellVal (process_soft_rejects (process_hard_rejects df).1).1 i (F ++ "_orig") ≠ none
        ↔ i ∈ rejectsOf (process_soft_rejects (process_hard_rejects df).1).2 F)
      ∧ (i ∈ rejectsOf (process_soft_rejects (process_hard_rejects df).1).2 F
        → cellVal (process_soft_rejects (process_hard_rejects df).1).1 i F = none) := by
  have hnotin : ∀ fr2 ∈ nullable_fields, (fr2.1 ++ "_orig") ∉ keep_cols := by decide
  have hne3 : ∀ fr2 ∈ nullable_fields, (fr2.1 ++ "_orig") ≠ "year"
      ∧ (fr2.1 ++ "_orig") ≠ "month" ∧ (fr2.1 ++ "_orig") ≠ "date" := by decide
  have hndh : (((process_hard_rejects df).1).map Prod.fst).Nodup := by
    rw [hard_table_char]
    have hsub : List.Sublist
        (List.map Prod.fst ((date_proc df).filter
          (fun p => !((unionRejects (process_hard_rejects df).2).contains p.1))))
        (List.map Prod.fst (date_proc df)) :=
      List.Sublist.map Prod.fst (List.filter_sublist _)
    have hdp : ((date_proc df).map Prod.fst).Nodup := by
      rw [map_fst_date_proc]
      exact hnd
    exact List.Nodup.sublist hsub hdp
  have hrow : ∀ fr ∈ nullable_fields, ∀ p ∈ (process_hard_rejects df).1,
      getVal p.2 (fr.1 ++ "_orig") = none := by
    intro fr hfr p hp
    rw [hard_table_char] at hp
    have hp2 : p ∈ date_proc df := List.mem_of_mem_filter hp
    rw [date_proc_eq] at hp2
    simp only [date_yr_mo] at hp2
    rw [mem_mapRows] at hp2
    obtain ⟨q, hq, hpq⟩ := hp2
    simp only [normalizeNulls] at hq
    rw [mem_mapRows] at hq
    obtain ⟨q0, hq0, hqq0⟩ := hq
    subst hpq
    subst hqq0
    show getVal (date_yr_mo_row "date"
        (normalize_row "date" ["0000-00-00"] q0.2)) (fr.1 ++ "_orig") = none
    rw [getVal_date_yr_mo_row_ne _ _ _ (hne3 fr hfr).1 (hne3 fr hfr).2.1]
    rw [getVal_normalize_row_ne _ _ _ _ (hne3 fr hfr).2.2]
    apply getVal_eq_none_of_keys
    intro qq hqq hqc
    have hkc : qq.1 ∈ keep_cols := hwf q0 hq0 qq hqq
    rw [hqc] at hkc
    exact hnotin fr hfr hkc
  have hsh : ∀ fr ∈ nullable_fields, ∀ i,
      cellVal (process_hard_rejects df).1 i (fr.1 ++ "_orig") = none := by
    intro fr hfr i
    unfold cellVal
    cases hr : rowAtP (process_hard_rejects df).1 i with
    | none => rfl
    | some p =>
      exact hrow fr hfr p (rowAtP_eq_some _ i p hr).1
  exact soft_runFields_invariant nullable_fields soft_protected
    (process_hard_rejects df).1 hndh softOk_nullable hsh

/-- Concrete table for C3's witness: one row with valid mandatory fields
(so it survives the hard phase, gaining `year`/`month` columns) and a
non-numeric district. -/
def c3df : Table :=
  [(0, [("id", some "1"), ("case_number", some "HY12"),
        ("date", some "2019-05-01"), ("district", some "x7")])]

theorem C3_soft_shadow_invariant_witness :
    (cellVal (process_soft_rejects (process_hard_rejects c3df).1).1 0
        ("district" ++ "_orig") ≠ none
      ↔ 0 ∈ rejectsOf (process_soft_rejects (process_hard_rejects c3df).1).2 "district")
    ∧ (0 ∈ rejectsOf (process_soft_rejects (process_hard_rejects c3df).1).2 "district"
      → cellVal (process_soft_rejects (process_hard_rejects c3df).1).1 0 "district" = none) :=
  C3_soft_shadow_invariant c3df (by decide) (by decide) "district" (by decide) 0

end Scrub
